import Mathlib

/-! # Verification of the ClimateEye frontend data logic

A shallow embedding, in Lean 4, of the data-handling routines of the
ClimateEye dashboard (a React single-page application):

* the per-day maximum-AQI aggregation of `MonthlyWeatherCalendar.jsx`
  (both the monthly fold `dailyMaxAQI` in `fetchData` and the weekly
  per-day computation in `fetchWeeklyData`);
* the month-window check, the ranged-fetch-with-fallback logic and the
  error classification of `fetchData`, modelled as a pure function from
  a network environment to the resulting component state together with
  the trace of network calls it issues;
* month navigation (`handlePreviousMonth` / `handleNextMonth`);
* the fetch client of `services/api.js` (`calculateGeometryCenter`,
  `fetchAQIData`, `fetchMonthlyWeatherData` with its `NaN`/`Infinity`
  text sanitisation and recursive `cleanData` pass), together with a
  model of JavaScript `JSON.parse` over character lists;
* the credential check of `AuthContext.jsx`.

JavaScript numbers are modelled exactly: integer-valued quantities as
`Int`, coordinates as `Rat`, and JSON numeric literals by their digit
strings plus explicit non-finite tags (`NaN`, `Infinity`, `-Infinity`),
so that the "non-finite value" checks of the source are meaningful.
-/

/-! ## Hourly AQI records and the per-day maximum (MonthlyWeatherCalendar.jsx)

An hourly record as consumed by the calendar: the backend `date`
timestamp, normalised to its calendar day (`parseISO` / `startOfDay` /
`format "yyyy-MM-dd"` in the source), is modelled as a `Nat` day key;
the `aqi` field is `Option Int` (`none` models both `null` and a
missing field). -/

structure AQIRec where
  date : Nat
  aqi : Option Int
  deriving DecidableEq, Repr

/-- The update applied to a stored day maximum by the `dailyMaxAQI`
accumulation of `fetchData` (MonthlyWeatherCalendar.jsx lines 242-257):
records with `aqi` equal to `null` or `undefined` are skipped
(in `dmStep` below); otherwise the entry under the record day key is
overwritten when `!dailyMaxAQI[dateKey] || record.aqi >
dailyMaxAQI[dateKey]`.  Note the JavaScript falsy test
`!dailyMaxAQI[dateKey]`: it is true both when the key is absent
(`undefined`) and when the stored maximum is the number `0`. -/
def dmCombine (old : Option Int) (v : Int) : Option Int :=
  match old with
  | none => some v
  | some cur => if cur = 0 ∨ cur < v then some v else some cur

/-- The per-record step of the accumulation: skip on null aqi,
otherwise combine into the entry of the record day. -/
def dmStep (m : Nat → Option Int) (r : AQIRec) : Nat → Option Int :=
  match r.aqi with
  | none => m
  | some v => fun d =>
      if d = r.date then dmCombine (m r.date) v else m d

/-- The day→max-AQI map built by `fetchData` from the hourly records
(the empty JavaScript object `{}` is the everywhere-`none` map). -/
def dailyMaxAQI (recs : List AQIRec) : Nat → Option Int :=
  recs.foldl dmStep (fun _ => none)

/-- The non-null `aqi` values of the records of day `d`, in record
order: the values over which the spec says the day maximum ranges. -/
def dayVals (recs : List AQIRec) (d : Nat) : List Int :=
  recs.filterMap (fun r => if r.date = d then r.aqi else none)

/-- Maximum of two optional values (`none` = no value yet). -/
def omax : Option Int → Option Int → Option Int
  | none, b => b
  | some a, none => some a
  | some a, some b => some (max a b)

/-- Maximum of a list of values, `none` on the empty list. -/
def listMax : List Int → Option Int
  | [] => none
  | v :: vs => omax (some v) (listMax vs)

/-- The weekly per-day AQI maximum of `fetchWeeklyData`
(MonthlyWeatherCalendar.jsx lines 392-402): the day entry is set to
`Math.max(...records.map(r => r.aqi || 0).filter(aqi => aqi > 0))`, and
only when that maximum is `> 0`.  Here `r.aqi || 0` maps `null` and
`undefined` (and the number `0`) to `0`; `Math.max` of no arguments is
minus infinity, which fails the `> 0` guard, so a day with no positive
value is left out of the map. -/
def weeklyDayMax (recs : List AQIRec) : Option Int :=
  match listMax ((recs.map (fun r => r.aqi.getD 0)).filter (fun a => 0 < a)) with
  | none => none
  | some m => if 0 < m then some m else none

/-! ## Calendar months and navigation (MonthlyWeatherCalendar.jsx)

A month is a year/month pair, `m` ranging over 1..12 for real dates
(the component reads `getFullYear()` and `getMonth() + 1`). -/

structure YM where
  y : Int
  m : Int
  deriving DecidableEq, Repr

/-- Linear month index: `idx ⟨y, m⟩ = 12*y + m`.  Two valid months are
`k` calendar months apart exactly when their indices differ by `k`. -/
def idx (d : YM) : Int := 12 * d.y + d.m

/-- Month shift as performed by the date-fns `addMonths` (and, with a
negated amount, `subMonths`):
month arithmetic with year carry; the day-of-month clamping of
`date-fns` does not affect the year/month components modelled here. -/
def addMonthsYM (d : YM) (k : Int) : YM :=
  let i : Int := 12 * d.y + (d.m - 1) + k
  ⟨i / 12, i % 12 + 1⟩

/-- Month difference `monthsDiff` as computed in the component:
`(selectedYear - todayYear) * 12 + (selectedMonth - todayMonth)`. -/
def monthsDiff (sel today : YM) : Int :=
  (sel.y - today.y) * 12 + (sel.m - today.m)

/-- Future-month test `isFutureMonth` as computed in the component:
`selYear > todayYear || (selYear === todayYear && selMonth > todayMonth)`. -/
def isFutureMonth (sel today : YM) : Prop :=
  sel.y > today.y ∨ (sel.y = today.y ∧ sel.m > today.m)

instance (sel today : YM) : Decidable (isFutureMonth sel today) := by
  unfold isFutureMonth; infer_instance

/-- Handler `handlePreviousMonth` (MonthlyWeatherCalendar.jsx lines 414-431):
step to `subMonths(currentMonth, 1)` only when the new month is at
most 2 calendar months before the current real month. -/
def handlePreviousMonth (today cur : YM) : YM :=
  let newMonth := addMonthsYM cur (-1)
  if monthsDiff newMonth today ≥ -2 then newMonth else cur

/-- Handler `handleNextMonth` (MonthlyWeatherCalendar.jsx lines 433-451):
step to `addMonths(currentMonth, 1)` unless the new month is a future
month (`!isFutureMonth || (newYear === todayYear && newMonthNum === todayMonth)`;
the second disjunct is redundant but kept from the source). -/
def handleNextMonth (today cur : YM) : YM :=
  let newMonth := addMonthsYM cur 1
  if ¬ isFutureMonth newMonth today ∨ (newMonth.y = today.y ∧ newMonth.m = today.m) then
    newMonth
  else cur

/-- Guard `canGoPrevious` (lines 454-465): enabled while strictly inside the
3-month window, i.e. `monthsDiff > -2`. -/
def canGoPrevious (today cur : YM) : Prop :=
  monthsDiff cur today > -2

instance (today cur : YM) : Decidable (canGoPrevious today cur) := by
  unfold canGoPrevious; infer_instance

/-- Guard `canGoNext` (lines 468-479): enabled while strictly before the
current real month. -/
def canGoNext (today cur : YM) : Prop :=
  cur.y < today.y ∨ (cur.y = today.y ∧ cur.m < today.m)

instance (today cur : YM) : Decidable (canGoNext today cur) := by
  unfold canGoNext; infer_instance

/-! ## Authentication (AuthContext.jsx) -/

/-- The authentication state: the React `isAuthenticated` flag and the
`localStorage` entry under the key `skyeye_auth`. -/
structure AuthState where
  isAuthenticated : Bool
  storage : Option String
  deriving DecidableEq, Repr

/-- Credential check `login` (AuthContext.jsx lines 18-25): on the exact credential pair
it sets the flag, writes the string "true" to local storage and returns `true`;
otherwise it returns `false` and touches nothing. -/
def login (username password : String) (s : AuthState) : Bool × AuthState :=
  if username = "admin" ∧ password = "planeteye@2025" then
    (true, ⟨true, some ("true")⟩)
  else
    (false, s)

/-- Model of `logout` (AuthContext.jsx lines 27-30). -/
def logout (_s : AuthState) : AuthState :=
  ⟨false, none⟩

/-! ## Geometry centroid (services/api.js, `calculateGeometryCenter`)

Coordinates are exact rationals.  A polygon geometry carries a list of
rings, each ring a list of `[longitude, latitude]` pairs; the source
uses only the first ring (`geometry.coordinates[0]`). -/

structure GeoPoint where
  latitude : Rat
  longitude : Rat
  deriving DecidableEq, Repr

structure Geometry where
  coordinates : List (List (Rat × Rat))
  deriving DecidableEq, Repr

/-- Centroid helper `calculateGeometryCenter`: `null` when the
geometry, its `coordinates` or its first ring is missing (`!geometry ||
!geometry.coordinates || !geometry.coordinates[0]`), otherwise the
componentwise sum of the vertices of the first ring divided by the
vertex count.  (For an empty first ring the source divides 0 by 0 and yields
`NaN`; the empty JavaScript array is truthy, so that case does pass the
guard.  It sits outside every claim, which all assume ≥ 1 vertex.) -/
def calculateGeometryCenter (geometry : Option Geometry) : Option GeoPoint :=
  match geometry with
  | none => none
  | some g =>
    match g.coordinates with
    | [] => none
    | ring :: _ =>
      let sums := ring.foldl (fun (s : Rat × Rat) coord => (s.1 + coord.1, s.2 + coord.2)) (0, 0)
      some ⟨sums.2 / ring.length, sums.1 / ring.length⟩

/-! ## JSON texts and values (services/api.js)

Response bodies are lists of characters.  JavaScript `JSON.parse` is
modelled by an executable recursive-descent parser over a grammar
covering the payloads at issue: `null`, booleans, (unsigned integer)
numeric literals kept as their digit strings, escape-free strings,
arrays and objects.  Parsed JavaScript numbers may in principle be the
values `NaN`, `Infinity` or `-Infinity`, so the value type carries
explicit tags for them; the parser itself never produces those tags
(`JSON.parse` rejects the corresponding tokens), which is exactly why
`fetchMonthlyWeatherData` must repair the text before parsing. -/

/-- Whitespace as matched both by the `\s` class of the sanitising
regexes and by the JSON grammar. -/
def isWsChar (c : Char) : Bool :=
  ((c == ' ') || (c == '\t')) || ((c == '\n') || (c == '\r'))

/-- Opening curly brace character. -/
def lbraceC : Char := Char.ofNat 123

/-- Closing curly brace character. -/
def rbraceC : Char := Char.ofNat 125

/-- JavaScript values produced by parsing a JSON body.  `num` holds the
digit string of a finite numeric literal; `numNaN`, `numInf` and
`numNegInf` are the non-finite JavaScript numbers. -/
inductive Json where
  | null
  | bool (b : Bool)
  | num (ds : List Char)
  | numNaN
  | numInf
  | numNegInf
  | str (s : List Char)
  | arr (elems : List Json)
  | obj (entries : List (List Char × Json))

mutual

/-- Serialisation of a value back to JSON text (object members are
rendered as `"key": value`, elements separated by commas, no other
whitespace); non-finite numbers render as the literal tokens `NaN`,
`Infinity` and `-Infinity` that a malformed backend body contains. -/
def render : Json → List Char
  | .null => 'n' :: ['u', 'l', 'l']
  | .bool true => 't' :: ['r', 'u', 'e']
  | .bool false => 'f' :: ['a', 'l', 's', 'e']
  | .num ds => ds
  | .numNaN => ['N', 'a', 'N']
  | .numInf => ['I', 'n', 'f', 'i', 'n', 'i', 't', 'y']
  | .numNegInf => '-' :: ['I', 'n', 'f', 'i', 'n', 'i', 't', 'y']
  | .str s => '"' :: s ++ ['"']
  | .arr xs => '[' :: renderElems xs ++ [']']
  | .obj es => lbraceC :: renderEntries es ++ [rbraceC]

/-- Comma-separated rendering of array elements. -/
def renderElems : List Json → List Char
  | [] => []
  | x :: xs => render x ++ renderElemsTail xs

/-- Tail elements of an array, each preceded by a comma. -/
def renderElemsTail : List Json → List Char
  | [] => []
  | x :: xs => ',' :: render x ++ renderElemsTail xs

/-- Comma-separated rendering of object members. -/
def renderEntries : List (List Char × Json) → List Char
  | [] => []
  | (k, v) :: es => '"' :: k ++ '"' :: ':' :: ' ' :: render v ++ renderEntriesTail es

/-- Tail members of an object, each preceded by a comma. -/
def renderEntriesTail : List (List Char × Json) → List Char
  | [] => []
  | (k, v) :: es => ',' :: '"' :: k ++ '"' :: ':' :: ' ' :: render v ++ renderEntriesTail es

end

mutual

/-- Truth of "no non-finite number occurs anywhere in the value". -/
def noNonFinite : Json → Bool
  | .numNaN => false
  | .numInf => false
  | .numNegInf => false
  | .arr xs => noNonFiniteElems xs
  | .obj es => noNonFiniteEntries es
  | _ => true

/-- List version of `noNonFinite` for array elements. -/
def noNonFiniteElems : List Json → Bool
  | [] => true
  | x :: xs => noNonFinite x && noNonFiniteElems xs

/-- List version of `noNonFinite` for object members. -/
def noNonFiniteEntries : List (List Char × Json) → Bool
  | [] => true
  | (_, v) :: es => noNonFinite v && noNonFiniteEntries es

end

/-- Numeric value of a digit string, as read left to right. -/
def digitsToNat (ds : List Char) : Nat :=
  ds.foldl (fun a c => 10 * a + (c.toNat - 48)) 0

/-- Whether a JSON integer literal overflows an IEEE-754 double: JS
`JSON.parse` converts every numeric literal to a double with round to
nearest, ties to even, which maps a nonnegative real to `Infinity`
exactly when it is at least `2^1024 - 2^970` (the midpoint between the
largest finite double `2^1024 - 2^971` and `2^1024`; the tie rounds
up).  Every numeral of 309 or more significant digits overflows. -/
def dblOverflow (ds : List Char) : Bool :=
  decide (2 ^ 1024 - 2 ^ 970 ≤ digitsToNat ds)

/-- What `JSON.parse` makes of an integer literal: the saturation to
`Infinity` on overflow, the digit string itself otherwise (the model
keeps in-range numerals as digit strings; the claims below are scoped
to numerals that doubles represent faithfully). -/
def numToJson (ds : List Char) : Json :=
  if dblOverflow ds then .numInf else .num ds

mutual

/-- Truth of "no numeral of the value overflows a double", the range
on which parsing the rendered text gives the value back unchanged. -/
def noOverflow : Json → Bool
  | .num ds => !dblOverflow ds
  | .arr xs => noOverflowElems xs
  | .obj es => noOverflowEntries es
  | _ => true

/-- List version of `noOverflow` for array elements. -/
def noOverflowElems : List Json → Bool
  | [] => true
  | x :: xs => noOverflow x && noOverflowElems xs

/-- List version of `noOverflow` for object members. -/
def noOverflowEntries : List (List Char × Json) → Bool
  | [] => true
  | (_, v) :: es => noOverflow v && noOverflowEntries es

end

/-- Characters admissible in the modelled string literals and object
keys: no quote (ends the literal), no backslash (the model parser has
no escapes) and no colon (so the sanitising regexes can never match
starting inside a string literal). -/
def validStrChar (c : Char) : Bool :=
  !(c == '"' || c == '\\' || c == ':')

mutual

/-- Well-formedness of a value as a JSON document of the modelled
grammar: numeric literals are non-empty digit strings, string literals
and keys use only `validStrChar` characters. -/
def wfJ : Json → Bool
  | .num ds => !ds.isEmpty && ds.all Char.isDigit
  | .str s => s.all validStrChar
  | .arr xs => wfElems xs
  | .obj es => wfEntries es
  | _ => true

/-- List version of `wfJ` for array elements. -/
def wfElems : List Json → Bool
  | [] => true
  | x :: xs => wfJ x && wfElems xs

/-- List version of `wfJ` for object members. -/
def wfEntries : List (List Char × Json) → Bool
  | [] => true
  | (k, v) :: es => k.all validStrChar && wfJ v && wfEntries es

end

mutual

/-- Truth of "non-finite numbers occur only as immediate object member
values" — the positions the text-level sanitisation of
`fetchMonthlyWeatherData` can repair (the regexes anchor on the colon
of an object member). -/
def nfOnlyObjVal : Json → Bool
  | .numNaN => false
  | .numInf => false
  | .numNegInf => false
  | .arr xs => nfElems xs
  | .obj es => nfEntries es
  | _ => true

/-- Array elements may not themselves be non-finite. -/
def nfElems : List Json → Bool
  | [] => true
  | x :: xs => nfOnlyObjVal x && nfElems xs

/-- Object member values may be non-finite at the top; deeper
occurrences must again sit directly under an object. -/
def nfEntries : List (List Char × Json) → Bool
  | [] => true
  | (_, v) :: es => nfObjVal v && nfEntries es

/-- A member value: either itself a non-finite number, or good inside. -/
def nfObjVal : Json → Bool
  | .numNaN => true
  | .numInf => true
  | .numNegInf => true
  | v => nfOnlyObjVal v

end

mutual

/-- The recursive `cleanData` pass of `fetchMonthlyWeatherData`
(services/api.js lines 437-451): a number that is `NaN` or not finite
becomes `null`; arrays and objects are cleaned recursively; everything
else is returned unchanged. -/
def cleanData : Json → Json
  | .numNaN => .null
  | .numInf => .null
  | .numNegInf => .null
  | .arr xs => .arr (cleanDataElems xs)
  | .obj es => .obj (cleanDataEntries es)
  | v => v

/-- The `obj.map(cleanData)` branch for arrays. -/
def cleanDataElems : List Json → List Json
  | [] => []
  | x :: xs => cleanData x :: cleanDataElems xs

/-- The key-by-key branch for objects. -/
def cleanDataEntries : List (List Char × Json) → List (List Char × Json)
  | [] => []
  | (k, v) :: es => (k, cleanData v) :: cleanDataEntries es

end

/-- Test for the `NaN` value. -/
def isNaNJ : Json → Bool
  | .numNaN => true
  | _ => false

/-- Test for the `Infinity` and `-Infinity` values. -/
def isInfJ : Json → Bool
  | .numInf => true
  | .numNegInf => true
  | _ => false

mutual

/-- Substitution of `null` for exactly those values `p` holds of that
sit in object member position — the value-level effect of one
text-level sanitising pass. -/
def subBy (p : Json → Bool) : Json → Json
  | .arr xs => .arr (subByElems p xs)
  | .obj es => .obj (subByEntries p es)
  | v => v

/-- Array elements: substitute inside, never at the top. -/
def subByElems (p : Json → Bool) : List Json → List Json
  | [] => []
  | x :: xs => subBy p x :: subByElems p xs

/-- Object members: a matching value becomes `null`, others are
substituted inside. -/
def subByEntries (p : Json → Bool) : List (List Char × Json) → List (List Char × Json)
  | [] => []
  | (k, v) :: es => (k, if p v then .null else subBy p v) :: subByEntries p es

end

/-! ## Text sanitisation (services/api.js lines 424-425)

```
const sanitizedText = text.replace(/:\s*NaN/g, ': null').replace(/:\s*-?Infinity/g, ': null')
```

Each pass scans the text left to right and rewrites every occurrence of
a colon, optional whitespace, and the token (with an optional leading
minus sign for the second pass) to the six characters of `: null`. -/

/-- Literal-token matcher: consumes `tok` from the front of the input. -/
def matchTok : List Char → List Char → Option (List Char)
  | [], cs => some cs
  | _ :: _, [] => none
  | t :: ts, c :: cs => if c = t then matchTok ts cs else none

/-- Matching after the colon: skip `\s*`, then an optional minus when
`allowMinus` (for `-?Infinity`), then the token.  Returns the input
remaining after the match. -/
def sanMatch (tok : List Char) (allowMinus : Bool) (cs : List Char) : Option (List Char) :=
  match cs with
  | c :: rest =>
    if isWsChar c then sanMatch tok allowMinus rest
    else if allowMinus ∧ c = '-' then matchTok tok rest
    else matchTok tok cs
  | [] => matchTok tok []

/-- Fuel-indexed single sanitising pass (the fuel is only a termination
device; `sanitizeBy` supplies the input length, which always suffices). -/
def sanitizeByF (tok : List Char) (allowMinus : Bool) : Nat → List Char → List Char
  | 0, cs => cs
  | _ + 1, [] => []
  | f + 1, c :: cs =>
    if c = ':' then
      match sanMatch tok allowMinus cs with
      | some rest => ':' :: ' ' :: 'n' :: 'u' :: 'l' :: 'l' :: sanitizeByF tok allowMinus f rest
      | none => ':' :: sanitizeByF tok allowMinus f cs
    else c :: sanitizeByF tok allowMinus f cs

/-- One `text.replace(/:\s*TOK/g, ': null')` pass. -/
def sanitizeBy (tok : List Char) (allowMinus : Bool) (cs : List Char) : List Char :=
  sanitizeByF tok allowMinus cs.length cs

/-- The pass `text.replace(/:\s*NaN/g, ': null')`. -/
def sanitizeNaN (cs : List Char) : List Char :=
  sanitizeBy (['N', 'a', 'N']) false cs

/-- The pass `.replace(/:\s*-?Infinity/g, ': null')`. -/
def sanitizeInf (cs : List Char) : List Char :=
  sanitizeBy (['I', 'n', 'f', 'i', 'n', 'i', 't', 'y']) true cs

/-- The composed `sanitizedText` of `fetchMonthlyWeatherData`. -/
def sanitizedText (cs : List Char) : List Char :=
  sanitizeInf (sanitizeNaN cs)

/-! ## The model of `JSON.parse` -/

/-- Leading-whitespace skip. -/
def skipWs : List Char → List Char
  | [] => []
  | c :: cs => if isWsChar c then skipWs cs else c :: cs

/-- String-literal body: the characters up to the closing quote and the
input remaining after it (`none` when the quote never closes). -/
def spanStr : List Char → Option (List Char × List Char)
  | [] => none
  | c :: cs =>
    if c = '"' then some ([], cs)
    else
      match spanStr cs with
      | some (s, r) => some (c :: s, r)
      | none => none

mutual

/-- Fuel-indexed recursive-descent value parser.  Returns the parsed
value and the unconsumed input.  It dispatches on the first
non-whitespace character: a digit starts a numeric literal, a quote a
string, a bracket an array, a brace an object, and `n`/`t`/`f` the
keywords; anything else — including the non-finite tokens `NaN`,
`Infinity` and `-Infinity`, which are not part of the grammar — makes
the parse fail, exactly as `JSON.parse` throws on them. -/
def pVal : Nat → List Char → Option (Json × List Char)
  | 0, _ => none
  | fuel + 1, cs =>
    match skipWs cs with
    | [] => none
    | c :: rest =>
      if c.isDigit then
        some (numToJson ((c :: rest).takeWhile Char.isDigit), (c :: rest).dropWhile Char.isDigit)
      else if c = '"' then
        match spanStr rest with
        | some (s, r) => some (.str s, r)
        | none => none
      else if c = '[' then
        match skipWs rest with
        | c1 :: r1 =>
          if c1 = ']' then some (.arr [], r1)
          else
            match pElems fuel rest with
            | some (xs, r) => some (.arr xs, r)
            | none => none
        | [] => none
      else if c = lbraceC then
        match skipWs rest with
        | c1 :: r1 =>
          if c1 = rbraceC then some (.obj [], r1)
          else
            match pEntries fuel rest with
            | some (es, r) => some (.obj es, r)
            | none => none
        | [] => none
      else if c = 'n' then
        match rest with
        | 'u' :: 'l' :: 'l' :: r => some (.null, r)
        | _ => none
      else if c = 't' then
        match rest with
        | 'r' :: 'u' :: 'e' :: r => some (.bool true, r)
        | _ => none
      else if c = 'f' then
        match rest with
        | 'a' :: 'l' :: 's' :: 'e' :: r => some (.bool false, r)
        | _ => none
      else none

/-- Elements of a non-empty array, consuming the closing bracket. -/
def pElems : Nat → List Char → Option (List Json × List Char)
  | 0, _ => none
  | fuel + 1, cs =>
    match pVal fuel cs with
    | some (x, r) =>
      (match skipWs r with
       | c :: r2 =>
         if c = ',' then
           match pElems fuel r2 with
           | some (xs, r3) => some (x :: xs, r3)
           | none => none
         else if c = ']' then some ([x], r2)
         else none
       | [] => none)
    | none => none

/-- Members of a non-empty object, consuming the closing brace. -/
def pEntries : Nat → List Char → Option (List (List Char × Json) × List Char)
  | 0, _ => none
  | fuel + 1, cs =>
    match skipWs cs with
    | c0 :: r0 =>
      if c0 = '"' then
        match spanStr r0 with
        | some (k, r1) =>
          (match skipWs r1 with
           | c1 :: r2 =>
             if c1 = ':' then
               match pVal fuel r2 with
               | some (v, r3) =>
                 (match skipWs r3 with
                  | c2 :: r4 =>
                    if c2 = ',' then
                      match pEntries fuel r4 with
                      | some (es, r5) => some ((k, v) :: es, r5)
                      | none => none
                    else if c2 = rbraceC then some ([(k, v)], r4)
                    else none
                  | [] => none)
               | none => none
             else none
           | [] => none)
        | none => none
      else none
    | [] => none

end

/-- Model of `JSON.parse`: parse one value and require only trailing
whitespace after it. -/
def jsonParse (cs : List Char) : Option Json :=
  match pVal (cs.length + 1) cs with
  | some (v, rest) => if skipWs rest = [] then some v else none
  | none => none

mutual

/-- Structural size of a value, used as a fuel bound for the parser. -/
def sizeJ : Json → Nat
  | .arr xs => sizeElems xs + 1
  | .obj es => sizeEntries es + 1
  | _ => 1

/-- Fuel bound for a non-empty array element list. -/
def sizeElems : List Json → Nat
  | [] => 0
  | x :: xs => sizeJ x + sizeElems xs + 1

/-- Fuel bound for a non-empty object member list. -/
def sizeEntries : List (List Char × Json) → Nat
  | [] => 0
  | (_, v) :: es => sizeJ v + sizeEntries es + 1

end

/-! ## The fetch client (services/api.js) -/

/-- Failure of a fetch-client call, keyed by what the source throws:
a non-ok HTTP response (carrying the status code) or an invalid JSON
body. -/
inductive FetchErr where
  | apiStatus (n : Nat)
  | invalidJson
  deriving DecidableEq, Repr

/-- Model of `fetchAQIData` (services/api.js lines 29-53) applied to a
backend response with the given status code and body text: a non-ok
response throws (`AQI API error`), otherwise the body goes straight to
`response.json()` with no repair and no cleaning — invalid JSON (which
includes any body containing a `NaN` or `Infinity` token) throws a
parse error.  `fetchWeatherData`, `fetchHourlyAQIData`,
`fetchHourlyAQIDataRange`, `fetchHourlyWeatherData` and
`fetchAQIAnalysis` are word-for-word the same apart from the endpoint
and message, so this one definition models all six. -/
def fetchAQIData (status : Nat) (text : List Char) : Except FetchErr Json :=
  if 200 ≤ status ∧ status < 300 then
    match jsonParse text with
    | some data => .ok data
    | none => .error .invalidJson
  else .error (.apiStatus status)

/-- Model of `fetchMonthlyWeatherData` (services/api.js lines 376-462)
applied to a backend response: a non-ok response throws a
status-dependent error; an ok body is first repaired by the two
`sanitizedText` replacements, then parsed (a body still invalid after
repair throws `Invalid JSON response from API`), and the parsed value
is passed through the recursive `cleanData` before being returned. -/
def fetchMonthlyWeatherData (status : Nat) (text : List Char) : Except FetchErr Json :=
  if 200 ≤ status ∧ status < 300 then
    match jsonParse (sanitizedText text) with
    | some data => .ok (cleanData data)
    | none => .error .invalidJson
  else .error (.apiStatus status)

/-! ## The calendar data fetch (MonthlyWeatherCalendar.jsx, `fetchData`)

The routine is modelled as a pure function of the current real date,
the selected month, and a network environment recording what each
backend call would return; it yields the component state left behind
and the trace of fetch-client calls issued, in order.  Days are
abstract serial numbers (consecutive integers, one per calendar day),
so `monthStartD ≤ monthEndD` and comparisons against `todayD` mirror
the `Date` comparisons of the source. -/

/-- The observable content of an error message, as the catch blocks of
`fetchData` see it: they probe the message only through
`String.includes`, so a message is modelled by the outcomes of the
probed substring tests.  The fields are, in the order the source
probes them:

* `marker` — contains "Monthly Weather API error" (the rethrow of
  services/api.js lines 454-461 wraps the message as "Failed to fetch
  weather data for m/y: ..." exactly when this is absent);
* `inNoData` — contains "404", "No weather data", "not available" or
  "No data available" (the inner catch, component lines 104-107);
* `in500` — contains "500" or "Server error" (inner catch line 117
  and outer catch line 293);
* `jsonNaN` — contains "JSON" or "NaN" (outer catch line 289);
* `out404` — contains "404", "Not Found" or "No weather data" (outer
  catch line 291);
* `out400` — contains "400" or "Invalid request" (outer catch
  line 301);
* `out503` — contains "503" or "unavailable" (outer catch line 303);
* `outNet` — contains "Failed to fetch" or "NetworkError" (outer
  catch line 305).

Wrapping a message preserves every probe outcome (substrings survive)
and makes `outNet` true, since the prefix contains "Failed to
fetch". -/
structure MsgBits where
  marker : Bool
  inNoData : Bool
  in500 : Bool
  jsonNaN : Bool
  out404 : Bool
  out400 : Bool
  out503 : Bool
  outNet : Bool
  deriving DecidableEq, Repr

/-- Failure modes of the `fetchMonthlyWeatherData` call (services/api.js
lines 396-421): a non-ok HTTP response whose error body yields no
usable message (`httpStatus`, message "Monthly Weather API error: n
statusText"); a non-ok response whose body supplies the message
(`httpBody` — the body parsed as JSON with a truthy `message` or
`error` field, or a non-empty body text shorter than 200 characters,
lines 398-408; the carried `MsgBits` are the probe outcomes of that
body-derived text); the rejection of `fetch` itself (`networkFail`,
message "Failed to fetch"); a parse failure of the ok body
(`parseFail`, message "Invalid JSON response from API: ..."); and any
other exception (`otherFail`, arbitrary message). -/
inductive ErrKind where
  | httpStatus (n : Nat)
  | httpBody (n : Nat) (m : MsgBits)
  | networkFail
  | parseFail
  | otherFail (m : MsgBits)
  deriving DecidableEq, Repr

/-- Probe outcomes of "No weather data available for m/y". -/
def bits404 : MsgBits := ⟨false, true, false, false, true, false, false, false⟩

/-- Probe outcomes of "Invalid request for m/y. Please check the
date.". -/
def bits400 : MsgBits := ⟨false, false, false, false, false, true, false, false⟩

/-- Probe outcomes of "Server error while fetching data for m/y.
Please try again later.". -/
def bits500 : MsgBits := ⟨false, false, true, false, false, false, false, false⟩

/-- Probe outcomes of "Service temporarily unavailable for m/y.
Please try again later." (note "temporarily unavailable" does not
contain the inner-probe text "not available"). -/
def bits503 : MsgBits := ⟨false, false, false, false, false, false, true, false⟩

/-- Probe outcomes of the default "Monthly Weather API error: n
statusText": it carries the marker, and for the statuses that reach it
(three digits, none of 400, 404, 500, 503, with the standard reason
phrases) none of the other probed substrings occurs. -/
def bitsDefault : MsgBits := ⟨true, false, false, false, false, false, false, false⟩

/-- Probe outcomes of the rejection message "Failed to fetch". -/
def bitsNetwork : MsgBits := ⟨false, false, false, false, false, false, false, true⟩

/-- Probe outcomes of "Invalid JSON response from API: ..." (the
parse-error detail is position text that spells none of the probed
tokens). -/
def bitsParse : MsgBits := ⟨false, false, false, true, false, false, false, false⟩

/-- The status-specific overrides of services/api.js lines 410-419:
for 404, 400, 500 and 503 the errorMessage assembled from the body is
replaced by a fixed message, so the body only gets through for other
statuses. -/
def statusBits (n : Nat) (fallback : MsgBits) : MsgBits :=
  if n = 404 then bits404
  else if n = 400 then bits400
  else if n = 500 then bits500
  else if n = 503 then bits503
  else fallback

/-- Probe outcomes of the message thrown inside
`fetchMonthlyWeatherData`, before the rethrow of lines 454-461. -/
def rawMsg : ErrKind → MsgBits
  | .httpStatus n => statusBits n bitsDefault
  | .httpBody n m => statusBits n m
  | .networkFail => bitsNetwork
  | .parseFail => bitsParse
  | .otherFail m => m

/-- Effect of wrapping a message as "Failed to fetch weather data for
m/y: ...": every probed substring of the original survives, and the
prefix makes the network probe hit. -/
def wrapBits (r : MsgBits) : MsgBits :=
  ⟨r.marker, r.inNoData, r.in500, r.jsonNaN, r.out404, r.out400, r.out503, true⟩

/-- Probe outcomes of the message the component receives: the rethrow
of services/api.js lines 454-461 wraps exactly the messages that do
not carry the "Monthly Weather API error" marker. -/
def thrownMsg (k : ErrKind) : MsgBits :=
  if (rawMsg k).marker then rawMsg k else wrapBits (rawMsg k)

/-- Truth of the inner-catch probe `includes('404') || includes('No
weather data') || includes('not available') || includes('No data
available')` on the received message. -/
def innerNoData (k : ErrKind) : Prop := (thrownMsg k).inNoData = true

instance (k : ErrKind) : Decidable (innerNoData k) := by
  unfold innerNoData; infer_instance

/-- Truth of `includes('500') || includes('Server error')`. -/
def innerServer (k : ErrKind) : Prop := (thrownMsg k).in500 = true

instance (k : ErrKind) : Decidable (innerServer k) := by
  unfold innerServer; infer_instance

/-- Truth of `includes('JSON') || includes('NaN')`. -/
def msgHasJSON (k : ErrKind) : Prop := (thrownMsg k).jsonNaN = true

instance (k : ErrKind) : Decidable (msgHasJSON k) := by
  unfold msgHasJSON; infer_instance

/-- Truth of `includes('404') || includes('Not Found') ||
includes('No weather data')`. -/
def outer404 (k : ErrKind) : Prop := (thrownMsg k).out404 = true

instance (k : ErrKind) : Decidable (outer404 k) := by
  unfold outer404; infer_instance

/-- Truth of `includes('400') || includes('Invalid request')`. -/
def outer400 (k : ErrKind) : Prop := (thrownMsg k).out400 = true

instance (k : ErrKind) : Decidable (outer400 k) := by
  unfold outer400; infer_instance

/-- Truth of `includes('503') || includes('unavailable')`. -/
def outer503 (k : ErrKind) : Prop := (thrownMsg k).out503 = true

instance (k : ErrKind) : Decidable (outer503 k) := by
  unfold outer503; infer_instance

/-- Truth of `includes('Failed to fetch') || includes('NetworkError')`
on the received message: true of every wrapped message (the wrapper
prefix contains "Failed to fetch"), and otherwise of a message that
already contained one of the two probed texts. -/
def outerNetwork (k : ErrKind) : Prop := (thrownMsg k).outNet = true

instance (k : ErrKind) : Decidable (outerNetwork k) := by
  unfold outerNetwork; infer_instance

/-- The user-facing error messages `fetchData` can leave in the
`error` state (MonthlyWeatherCalendar.jsx lines 68-85 and 276-311):

* `futureMonth` — "No data available for X (future month)."
* `tooOld` — "No data available for X. Only data for the last 3
  months is available."
* `invalidData` — "Unable to load data for X. The API returned
  invalid data. ..."
* `noData` — "No data available for X."
* `serverError` — "Server error while loading data for X. Please try
  again later."
* `invalidRequest` — "Invalid request for X. Please check the date."
* `unavailable` — "Service temporarily unavailable for X. Please try
  again later."
* `networkError` — "Network error while loading data for X. Please
  check your connection."
* `generic` — "Error loading data for X: ..." -/
inductive ErrMsg where
  | futureMonth
  | tooOld
  | invalidData
  | noData
  | serverError
  | invalidRequest
  | unavailable
  | networkError
  | generic
  deriving DecidableEq, Repr

/-- The catch-block classification of `fetchData` (lines 264-311),
applied to a monthly-fetch failure: the in-catch window re-checks come
first, then the message probes, in source order, with the generic
message as the final fallback. -/
def outerClassify (today sel : YM) (k : ErrKind) : ErrMsg :=
  if isFutureMonth sel today then .futureMonth
  else if monthsDiff sel today < -2 then .tooOld
  else if msgHasJSON k then .invalidData
  else if outer404 k then .noData
  else if innerServer k then
    (if isFutureMonth sel today then .futureMonth else .serverError)
  else if outer400 k then .invalidRequest
  else if outer503 k then .unavailable
  else if outerNetwork k then .networkError
  else .generic

/-- The outer-catch chain as a function of the raw message bits of a
monthly-fetch failure, wrapping folded in: under a selected month that
is neither future nor too old, the classification probes the received
message in source order, and the network probe hits when the raw
message already contained a network text or was wrapped (no
marker). -/
def msgClassify (m : MsgBits) : ErrMsg :=
  if m.jsonNaN = true then .invalidData
  else if m.out404 = true then .noData
  else if m.in500 = true then .serverError
  else if m.out400 = true then .invalidRequest
  else if m.out503 = true then .unavailable
  else if (m.outNet || !m.marker) = true then .networkError
  else .generic

/-- One backend call issued by `fetchData`, in the order issued. -/
inductive Call where
  | monthly
  | range
  | day (d : Nat)
  deriving DecidableEq, Repr

/-- A daily weather record of the monthly endpoint: a (normalised) day
key and the remaining fields, whose values may be any parsed
JavaScript value. -/
structure WRec where
  date : Nat
  fields : List (List Char × Json)

/-- Per-field cleaning of a daily record (lines 140-159): a field whose
value is a number that is `NaN` or not finite becomes `null`; the
`date` field is normalised to a day key, which the model carries
already normalised. -/
def cleanWField (v : Json) : Json :=
  if isNaNJ v || isInfJ v then .null else v

/-- Record-level cleaning (the `cleanedRecords` map of `fetchData`). -/
def cleanWRec (r : WRec) : WRec :=
  ⟨r.date, r.fields.map (fun kv => (kv.1, cleanWField kv.2))⟩

/-- What the network would answer during one run of `fetchData`:
the monthly-weather call (`.ok` carries `daily_records` when present),
the ranged hourly-AQI call, and the per-day hourly-AQI calls. -/
structure FetchEnv where
  monthly : Except ErrKind (Option (List WRec))
  range : Except Unit (List AQIRec)
  day : Nat → Except Unit (List AQIRec)

/-- The component state `fetchData` leaves behind: the loading flag,
the user-facing error, the (cleaned) monthly records, and the day→max
AQI map (`none` models `setAqiData(null)`). -/
structure CalState where
  loading : Bool
  error : Option ErrMsg
  monthlyData : Option (List WRec)
  aqiData : Option (Nat → Option Int)

/-- Day serial numbers from `a` to `b` inclusive, the model of
`eachDayOfInterval` (which requires `a ≤ b`; the source only builds
intervals from a month start to a day not before it). -/
def daysInterval (a b : Nat) : List Nat :=
  (List.range (b + 1 - a)).map (a + ·)

/-- Model of `fetchData` (MonthlyWeatherCalendar.jsx lines 39-319):
the month-window check before any call; the monthly-weather fetch with
its inner catch (a no-data failure is swallowed with an empty state, a
server-error failure re-checks for a future month start, everything
else goes to the outer catch); then the ranged AQI fetch, falling back
to one call per day of the window on failure, concatenating the
records of the days that succeeded non-empty. -/
def fetchData (today sel : YM) (todayD monthStartD monthEndD : Nat) (env : FetchEnv) :
    CalState × List Call :=
  if isFutureMonth sel today then
    (⟨false, some .futureMonth, some [], none⟩, [])
  else if monthsDiff sel today < -2 then
    (⟨false, some .tooOld, some [], none⟩, [])
  else
    match env.monthly with
    | .error k =>
      if innerNoData k then (⟨false, none, some [], none⟩, [.monthly])
      else if innerServer k ∧ todayD < monthStartD then
        (⟨false, some .futureMonth, some [], none⟩, [.monthly])
      else
        (⟨false, some (outerClassify today sel k), some [], none⟩, [.monthly])
    | .ok wopt =>
      let monthlyData :=
        match wopt with
        | some wrecs => some (wrecs.map cleanWRec)
        | none => some ([] : List WRec)
      let endD := min todayD monthEndD
      let window := daysInterval monthStartD endD
      match env.range with
      | .ok recs =>
        (⟨false, none, monthlyData, some (dailyMaxAQI recs)⟩, [.monthly, .range])
      | .error _ =>
        let called := window.filter (fun d => d ≤ todayD)
        let allRecords := (called.filterMap (fun d =>
          match env.day d with
          | .ok rs => if rs.isEmpty then none else some rs
          | .error _ => none)).flatten
        (⟨false, none, monthlyData,
            if allRecords.isEmpty then none else some (dailyMaxAQI allRecords)⟩,
          [.monthly, .range] ++ called.map .day)

/-- What the component renders for a given state (monthly mode, lines
552-613): the loading spinner, the inline error box, the inline "No
weather data available for X." notice on an empty record list, nothing
at all when `monthlyData` was never set, or the calendar grid. -/
inductive CalView where
  | loadingView
  | errorView (msg : ErrMsg)
  | noWeatherDataView
  | nothingView
  | calendarView
  deriving DecidableEq, Repr

/-- The render dispatch of the component on a state. -/
def renderView (s : CalState) : CalView :=
  if s.loading then .loadingView
  else
    match s.error with
    | some m => .errorView m
    | none =>
      match s.monthlyData with
      | none => .nothingView
      | some [] => .noWeatherDataView
      | some (_ :: _) => .calendarView

/-! ## Supporting lemmas -/

theorem foldl_sumPair (ring : List (Rat × Rat)) : ∀ init : Rat × Rat,
    ring.foldl (fun (s : Rat × Rat) c => (s.1 + c.1, s.2 + c.2)) init
      = (init.1 + (ring.map Prod.fst).sum, init.2 + (ring.map Prod.snd).sum) := by
  induction ring with
  | nil => intro init; simp
  | cons c cs ih => intro init; simp [ih, add_assoc]

theorem idx_addMonthsYM (d : YM) (k : Int) : idx (addMonthsYM d k) = idx d + k := by
  have h := Int.ediv_add_emod (12 * d.y + (d.m - 1) + k) 12
  simp only [idx, addMonthsYM]
  omega

theorem addMonthsYM_m_bounds (d : YM) (k : Int) :
    1 ≤ (addMonthsYM d k).m ∧ (addMonthsYM d k).m ≤ 12 := by
  have h1 := Int.emod_nonneg (12 * d.y + (d.m - 1) + k) (by norm_num : (12 : Int) ≠ 0)
  have h2 := Int.emod_lt_of_pos (12 * d.y + (d.m - 1) + k) (by norm_num : (0 : Int) < 12)
  simp only [addMonthsYM]
  omega

theorem isFutureMonth_iff (a b : YM) (ha1 : 1 ≤ a.m) (ha2 : a.m ≤ 12)
    (hb1 : 1 ≤ b.m) (hb2 : b.m ≤ 12) :
    isFutureMonth a b ↔ idx b < idx a := by
  simp only [isFutureMonth, idx]
  omega

theorem monthsDiff_eq_idx (a b : YM) : monthsDiff a b = idx a - idx b := by
  simp only [monthsDiff, idx]; ring

/-! ## Claims about the geometry centroid and the login check -/

/-- C6: for every polygon geometry whose first coordinate ring has at
least one vertex, `calculateGeometryCenter` returns the point whose
latitude is the arithmetic mean of the vertex latitudes (the second
components) and whose longitude is the arithmetic mean of the vertex
longitudes (the first components). -/
theorem calculateGeometryCenter_mean (rings : List (List (Rat × Rat)))
    (ring : List (Rat × Rat)) (h : ring ≠ []) :
    calculateGeometryCenter (some ⟨ring :: rings⟩) =
      some ⟨(ring.map Prod.snd).sum / ring.length, (ring.map Prod.fst).sum / ring.length⟩ := by
  simp [calculateGeometryCenter, foldl_sumPair]

theorem calculateGeometryCenter_mean_witness :
    ([((1 : Rat), (2 : Rat)), (3, 4)]) ≠ []
    ∧ calculateGeometryCenter (some ⟨[[(1, 2), (3, 4)]]⟩) =
        some ⟨(([((1 : Rat), (2 : Rat)), (3, 4)]).map Prod.snd).sum / ([((1 : Rat), (2 : Rat)), (3, 4)]).length,
              (([((1 : Rat), (2 : Rat)), (3, 4)]).map Prod.fst).sum / ([((1 : Rat), (2 : Rat)), (3, 4)]).length⟩ :=
  ⟨by simp, calculateGeometryCenter_mean [] ([(1, 2), (3, 4)]) (by simp)⟩

/-- C10: `login u p s` returns `true` and sets the authenticated state
(flag and the `skyeye_auth` storage entry) exactly when `u = "admin"`
and `p = "planeteye@2025"`; on any other pair it returns `false` and
leaves the state unchanged. -/
theorem login_iff (u p : String) (s : AuthState) :
    ((login u p s).1 = true ↔ (u = "admin" ∧ p = "planeteye@2025"))
    ∧ ((u = "admin" ∧ p = "planeteye@2025") →
        login u p s = (true, ⟨true, some ("true")⟩))
    ∧ (¬ (u = "admin" ∧ p = "planeteye@2025") → login u p s = (false, s)) := by
  unfold login
  by_cases h : u = "admin" ∧ p = "planeteye@2025" <;> simp [h]

theorem login_iff_witness :
    (("admin" : String) = "admin" ∧ ("planeteye@2025" : String) = "planeteye@2025")
    ∧ login "admin" "planeteye@2025" ⟨false, none⟩ = (true, ⟨true, some ("true")⟩)
    ∧ ¬ (("guest" : String) = "admin" ∧ ("pw" : String) = "planeteye@2025")
    ∧ login "guest" "pw" ⟨false, none⟩ = (false, ⟨false, none⟩) :=
  ⟨⟨rfl, rfl⟩,
   (login_iff "admin" "planeteye@2025" ⟨false, none⟩).2.1 ⟨rfl, rfl⟩,
   by simp,
   (login_iff "guest" "pw" ⟨false, none⟩).2.2 (by simp)⟩

/-! ## Claims about calendar navigation and the month window -/

/-- C9: month navigation preserves the displayed-month window.  From
any displayed month, `handlePreviousMonth` either steps one month back
or does nothing, and whenever it moves, the result is at most 2
calendar months before the current real month; `handleNextMonth`
either steps one month forward or does nothing, and whenever it moves,
the result is not past the current real month.  A step that would
leave the window (and exactly a step the corresponding `canGo` guard
forbids) leaves the displayed month unchanged. -/
theorem handleMonth_window (today cur : YM)
    (ht1 : 1 ≤ today.m) (ht2 : today.m ≤ 12) (hc1 : 1 ≤ cur.m) (hc2 : cur.m ≤ 12) :
    (handlePreviousMonth today cur = addMonthsYM cur (-1) ∨ handlePreviousMonth today cur = cur)
    ∧ (handlePreviousMonth today cur ≠ cur →
        idx today - 2 ≤ idx (handlePreviousMonth today cur))
    ∧ (idx (addMonthsYM cur (-1)) < idx today - 2 → handlePreviousMonth today cur = cur)
    ∧ (handleNextMonth today cur = addMonthsYM cur 1 ∨ handleNextMonth today cur = cur)
    ∧ (handleNextMonth today cur ≠ cur → idx (handleNextMonth today cur) ≤ idx today)
    ∧ (idx today < idx (addMonthsYM cur 1) → handleNextMonth today cur = cur)
    ∧ (¬ canGoPrevious today cur → handlePreviousMonth today cur = cur)
    ∧ (¬ canGoNext today cur → handleNextMonth today cur = cur) := by
  have hnb := addMonthsYM_m_bounds cur 1
  have hpi := idx_addMonthsYM cur (-1)
  have hni := idx_addMonthsYM cur 1
  have hfut := isFutureMonth_iff (addMonthsYM cur 1) today hnb.1 hnb.2 ht1 ht2
  have key_p : monthsDiff (addMonthsYM cur (-1)) today =
      idx (addMonthsYM cur (-1)) - idx today := monthsDiff_eq_idx _ _
  have hcgp : canGoPrevious today cur ↔ idx cur - idx today > -2 := by
    unfold canGoPrevious; rw [monthsDiff_eq_idx cur today]
  have hcgn : canGoNext today cur ↔ idx cur < idx today := by
    unfold canGoNext idx; omega
  have hymn : ((addMonthsYM cur 1).y = today.y ∧ (addMonthsYM cur 1).m = today.m) →
      idx (addMonthsYM cur 1) = idx today := by
    intro h; simp only [idx, h.1, h.2]
  have hprev : handlePreviousMonth today cur =
      if monthsDiff (addMonthsYM cur (-1)) today ≥ -2 then addMonthsYM cur (-1) else cur := rfl
  have hnext : handleNextMonth today cur =
      if ¬ isFutureMonth (addMonthsYM cur 1) today ∨
         ((addMonthsYM cur 1).y = today.y ∧ (addMonthsYM cur 1).m = today.m) then
        addMonthsYM cur 1 else cur := rfl
  by_cases hp : monthsDiff (addMonthsYM cur (-1)) today ≥ -2 <;>
    by_cases hn : ¬ isFutureMonth (addMonthsYM cur 1) today ∨
        ((addMonthsYM cur 1).y = today.y ∧ (addMonthsYM cur 1).m = today.m)
  · rw [hprev, hnext, if_pos hp, if_pos hn]
    refine ⟨Or.inl rfl, fun _ => by omega, fun hlt => by exfalso; omega, Or.inl rfl,
      ?_, ?_, ?_, ?_⟩
    · intro _
      rcases hn with hnf | hym
      · rw [hfut] at hnf; omega
      · have := hymn hym; omega
    · intro hlt; exfalso
      rcases hn with hnf | hym
      · rw [hfut] at hnf; omega
      · have := hymn hym; omega
    · intro hcg; exfalso; rw [hcgp] at hcg; omega
    · intro hcg; exfalso; rw [hcgn] at hcg
      rcases hn with hnf | hym
      · rw [hfut] at hnf; omega
      · have := hymn hym; omega
  · rw [hprev, hnext, if_pos hp, if_neg hn]
    refine ⟨Or.inl rfl, fun _ => by omega, fun hlt => by exfalso; omega, Or.inr rfl,
      fun h => absurd rfl h, fun _ => rfl, ?_, fun _ => rfl⟩
    intro hcg; exfalso; rw [hcgp] at hcg; omega
  · rw [hprev, hnext, if_neg hp, if_pos hn]
    refine ⟨Or.inr rfl, fun h => absurd rfl h, fun _ => rfl, Or.inl rfl, ?_, ?_, fun _ => rfl, ?_⟩
    · intro _
      rcases hn with hnf | hym
      · rw [hfut] at hnf; omega
      · have := hymn hym; omega
    · intro hlt; exfalso
      rcases hn with hnf | hym
      · rw [hfut] at hnf; omega
      · have := hymn hym; omega
    · intro hcg; exfalso; rw [hcgn] at hcg
      rcases hn with hnf | hym
      · rw [hfut] at hnf; omega
      · have := hymn hym; omega
  · rw [hprev, hnext, if_neg hp, if_neg hn]
    exact ⟨Or.inr rfl, fun h => absurd rfl h, fun _ => rfl, Or.inr rfl,
      fun h => absurd rfl h, fun _ => rfl, fun _ => rfl, fun _ => rfl⟩

theorem handleMonth_window_witness :
    (1 ≤ (⟨2025, 10⟩ : YM).m ∧ (⟨2025, 10⟩ : YM).m ≤ 12
      ∧ 1 ≤ (⟨2025, 8⟩ : YM).m ∧ (⟨2025, 8⟩ : YM).m ≤ 12)
    ∧ (idx (addMonthsYM ⟨2025, 8⟩ (-1)) < idx ⟨2025, 10⟩ - 2 →
        handlePreviousMonth ⟨2025, 10⟩ ⟨2025, 8⟩ = ⟨2025, 8⟩) :=
  ⟨⟨by norm_num, by norm_num, by norm_num, by norm_num⟩,
   (handleMonth_window ⟨2025, 10⟩ ⟨2025, 8⟩ (by norm_num) (by norm_num)
      (by norm_num) (by norm_num)).2.2.1⟩

/-- C2: when the selected month is a future month or more than 2
calendar months before the current month, `fetchData` sets the
corresponding explicit out-of-range error, clears the data, finishes
loading, and issues no network call at all. -/
theorem fetchData_window_no_calls (today sel : YM) (todayD monthStartD monthEndD : Nat)
    (env : FetchEnv)
    (h : isFutureMonth sel today ∨ monthsDiff sel today < -2) :
    (fetchData today sel todayD monthStartD monthEndD env).2 = []
    ∧ (fetchData today sel todayD monthStartD monthEndD env).1.error =
        some (if isFutureMonth sel today then ErrMsg.futureMonth else ErrMsg.tooOld)
    ∧ (fetchData today sel todayD monthStartD monthEndD env).1.aqiData = none
    ∧ (fetchData today sel todayD monthStartD monthEndD env).1.loading = false := by
  by_cases hf : isFutureMonth sel today
  · simp [fetchData, hf]
  · have hold : monthsDiff sel today < -2 := h.resolve_left hf
    simp [fetchData, hf, hold]

theorem fetchData_window_no_calls_witness :
    (isFutureMonth ⟨2026, 1⟩ ⟨2025, 10⟩ ∨ monthsDiff ⟨2026, 1⟩ ⟨2025, 10⟩ < -2)
    ∧ (fetchData ⟨2025, 10⟩ ⟨2026, 1⟩ 100 130 160
        ⟨.ok none, .ok [], fun _ => .ok []⟩).2 = []
    ∧ (fetchData ⟨2025, 10⟩ ⟨2026, 1⟩ 100 130 160
        ⟨.ok none, .ok [], fun _ => .ok []⟩).1.error =
        some (if isFutureMonth ⟨2026, 1⟩ ⟨2025, 10⟩ then ErrMsg.futureMonth else ErrMsg.tooOld)
    ∧ (fetchData ⟨2025, 10⟩ ⟨2026, 1⟩ 100 130 160
        ⟨.ok none, .ok [], fun _ => .ok []⟩).1.aqiData = none
    ∧ (fetchData ⟨2025, 10⟩ ⟨2026, 1⟩ 100 130 160
        ⟨.ok none, .ok [], fun _ => .ok []⟩).1.loading = false := by
  refine ⟨Or.inl (by simp [isFutureMonth]), ?_⟩
  exact fetchData_window_no_calls ⟨2025, 10⟩ ⟨2026, 1⟩ 100 130 160
    ⟨.ok none, .ok [], fun _ => .ok []⟩ (Or.inl (by simp [isFutureMonth]))

/-! ## Lemmas about the per-day maximum fold -/

theorem omax_none_right (a : Option Int) : omax a none = a := by
  cases a <;> rfl

theorem omax_assoc (a b c : Option Int) : omax (omax a b) c = omax a (omax b c) := by
  cases a <;> cases b <;> cases c <;> simp [omax, max_assoc]

theorem omax_left_comm (a b c : Option Int) : omax a (omax b c) = omax b (omax a c) := by
  cases a <;> cases b <;> cases c <;> simp [omax, max_left_comm, max_comm]

theorem foldl_dmStep_eq (recs : List AQIRec) : ∀ (m : Nat → Option Int),
    (∀ d v, m d = some v → 0 ≤ v) →
    (∀ r ∈ recs, ∀ v, r.aqi = some v → 0 ≤ v) →
    ∀ d, recs.foldl dmStep m d = omax (m d) (listMax (dayVals recs d)) := by
  induction recs with
  | nil =>
    intro m _ _ d
    simp [dayVals, listMax, omax_none_right]
  | cons r recs ih =>
    intro m hm hr d
    have hr0 : ∀ v, r.aqi = some v → 0 ≤ v := hr r (List.mem_cons_self _ _)
    have hrest : ∀ x ∈ recs, ∀ v, x.aqi = some v → 0 ≤ v :=
      fun x hx => hr x (List.mem_cons_of_mem _ hx)
    have hcomb : ∀ cur v, 0 ≤ cur → 0 ≤ v →
        dmCombine (some cur) v = some (max cur v) := by
      intro cur v hcur hv
      show (if cur = 0 ∨ cur < v then some v else some cur) = some (max cur v)
      by_cases hc : cur = 0 ∨ cur < v
      · rw [if_pos hc, max_eq_right (by omega)]
      · push_neg at hc
        rw [if_neg (by push_neg; exact hc), max_eq_left (by omega)]
    have hm' : ∀ e v, dmStep m r e = some v → 0 ≤ v := by
      intro e v hdv
      cases haqi : r.aqi with
      | none =>
        have hstep : dmStep m r = m := by unfold dmStep; rw [haqi]
        rw [hstep] at hdv
        exact hm e v hdv
      | some w =>
        have hw : 0 ≤ w := hr0 w haqi
        have hstep : dmStep m r e = if e = r.date then dmCombine (m r.date) w else m e := by
          unfold dmStep; rw [haqi]
        rw [hstep] at hdv
        by_cases he : e = r.date
        · rw [if_pos he] at hdv
          cases hmd : m r.date with
          | none =>
            rw [hmd] at hdv
            have : some w = some v := hdv
            cases this
            exact hw
          | some cur =>
            have hcur : 0 ≤ cur := hm r.date cur hmd
            rw [hmd, hcomb cur w hcur hw] at hdv
            cases hdv
            exact le_max_of_le_right hw
        · rw [if_neg he] at hdv
          exact hm e v hdv
    rw [List.foldl_cons, ih (dmStep m r) hm' hrest d]
    cases haqi : r.aqi with
    | none =>
      have hstep : dmStep m r = m := by unfold dmStep; rw [haqi]
      have hdvals : dayVals (r :: recs) d = dayVals recs d := by
        simp [dayVals, List.filterMap_cons, haqi]
      rw [hstep, hdvals]
    | some v =>
      have hv : 0 ≤ v := hr0 v haqi
      by_cases hd : r.date = d
      · have hdvals : dayVals (r :: recs) d = v :: dayVals recs d := by
          simp [dayVals, List.filterMap_cons, hd, haqi]
        have hstep : dmStep m r d = omax (m d) (some v) := by
          have h1 : dmStep m r d = if d = r.date then dmCombine (m r.date) v else m d := by
            unfold dmStep; rw [haqi]
          rw [h1, if_pos hd.symm, ← hd]
          cases hmd : m r.date with
          | none => rfl
          | some cur =>
            have hcur : 0 ≤ cur := hm r.date cur hmd
            rw [hcomb cur v hcur hv]
            rfl
        rw [hstep, hdvals, listMax, omax_assoc]
      · have hdvals : dayVals (r :: recs) d = dayVals recs d := by
          simp [dayVals, List.filterMap_cons, hd]
        have hstep : dmStep m r d = m d := by
          have h1 : dmStep m r d = if d = r.date then dmCombine (m r.date) v else m d := by
            unfold dmStep; rw [haqi]
          rw [h1, if_neg (fun hh => hd hh.symm)]
        rw [hstep, hdvals]

theorem dailyMaxAQI_eq_listMax (recs : List AQIRec)
    (h : ∀ r ∈ recs, ∀ v, r.aqi = some v → 0 ≤ v) (d : Nat) :
    dailyMaxAQI recs d = listMax (dayVals recs d) := by
  unfold dailyMaxAQI
  rw [foldl_dmStep_eq recs (fun _ => none) (by simp) h d]
  rfl

theorem listMax_eq_none (l : List Int) : listMax l = none ↔ l = [] := by
  cases l with
  | nil => simp [listMax]
  | cons v vs =>
    simp only [listMax]
    cases listMax vs <;> simp [omax]

theorem listMax_spec (l : List Int) : ∀ v, listMax l = some v →
    v ∈ l ∧ ∀ w ∈ l, w ≤ v := by
  induction l with
  | nil => intro v h; simp [listMax] at h
  | cons a l ih =>
    intro v h
    rw [listMax] at h
    cases hl : listMax l with
    | none =>
      rw [hl] at h
      simp [omax] at h
      subst h
      have : l = [] := (listMax_eq_none l).mp hl
      subst this
      simp
    | some m =>
      rw [hl] at h
      simp [omax] at h
      subst h
      obtain ⟨hm, hb⟩ := ih m hl
      constructor
      · rcases le_total a m with hh | hh
        · rw [max_eq_right hh]; exact List.mem_cons_of_mem _ hm
        · rw [max_eq_left hh]; exact List.mem_cons_self _ _
      · intro w hw
        rcases List.mem_cons.mp hw with rfl | hw2
        · exact le_max_left _ _
        · exact le_trans (hb w hw2) (le_max_right _ _)

theorem listMax_perm (l₁ l₂ : List Int) (h : l₁.Perm l₂) : listMax l₁ = listMax l₂ := by
  induction h with
  | nil => rfl
  | cons x _ ih => simp [listMax, ih]
  | swap x y l => simp only [listMax]; rw [omax_left_comm]
  | trans _ _ ih1 ih2 => exact ih1.trans ih2

theorem weekly_vals_eq (recs : List AQIRec)
    (h : ∀ r ∈ recs, ∀ v, r.aqi = some v → 0 < v) :
    ((recs.map (fun r => r.aqi.getD 0)).filter (fun a => 0 < a)) =
      recs.filterMap (fun r => r.aqi) := by
  induction recs with
  | nil => rfl
  | cons r recs ih =>
    have hr := h r (List.mem_cons_self _ _)
    have htl : ∀ x ∈ recs, ∀ v, x.aqi = some v → 0 < v :=
      fun x hx => h x (List.mem_cons_of_mem _ hx)
    cases haqi : r.aqi with
    | none => simp [List.filterMap_cons, haqi, ih htl]
    | some v =>
      have hv := hr v haqi
      simp [List.filterMap_cons, haqi, ih htl, hv]

/-! ## Claims about the per-day maximum -/

/-- C1 counterexample: the claim fails as stated.  For the day whose
records carry the aqi values `0` and `-1`, the monthly fold maps the
day to `-1` although the maximum of the aqi fields is `0` (after
storing `0`, the falsy test `!dailyMaxAQI[dateKey]` lets any later
value overwrite it); and the weekly computation leaves a day whose only
record has aqi `0` out of the map although not every record of that day
is null. -/
theorem dailyMax_claim_cex :
    dailyMaxAQI [⟨0, some 0⟩, ⟨0, some (-1)⟩] 0 = some (-1)
    ∧ dayVals [⟨0, some 0⟩, ⟨0, some (-1)⟩] 0 = [0, -1]
    ∧ ¬ ((0 : Int) ≤ -1)
    ∧ weeklyDayMax [⟨(0 : Nat), some (0 : Int)⟩] = none
    ∧ dayVals [⟨(0 : Nat), some (0 : Int)⟩] 0 = [0] := by
  decide

/-- C1 (amended): provided every non-null aqi value of the hourly
records is positive, the day-level maximum computed by the calendar
aggregation is correct: the monthly fold maps a day to `some v` exactly
when `v` is the greatest non-null aqi value among the records of that
day, and a day all of whose records have null aqi is absent from the
map (`none`), not mapped to `0`; likewise for the weekly per-day
computation. -/
theorem dailyMax_correct (recs : List AQIRec)
    (hpos : ∀ r ∈ recs, ∀ v, r.aqi = some v → 0 < v) :
    (∀ d, (dailyMaxAQI recs d = none ↔ dayVals recs d = [])
      ∧ (∀ v, dailyMaxAQI recs d = some v →
          v ∈ dayVals recs d ∧ ∀ w ∈ dayVals recs d, w ≤ v))
    ∧ ((weeklyDayMax recs = none ↔ recs.filterMap (fun r => r.aqi) = [])
      ∧ (∀ v, weeklyDayMax recs = some v →
          v ∈ recs.filterMap (fun r => r.aqi)
          ∧ ∀ w ∈ recs.filterMap (fun r => r.aqi), w ≤ v)) := by
  have hnn : ∀ r ∈ recs, ∀ v, r.aqi = some v → 0 ≤ v :=
    fun r hr v hv => le_of_lt (hpos r hr v hv)
  constructor
  · intro d
    rw [dailyMaxAQI_eq_listMax recs hnn d]
    exact ⟨listMax_eq_none _, fun v hv => listMax_spec _ v hv⟩
  · unfold weeklyDayMax
    rw [weekly_vals_eq recs hpos]
    cases hl : listMax (recs.filterMap (fun r => r.aqi)) with
    | none =>
      have hnil : recs.filterMap (fun r => r.aqi) = [] := (listMax_eq_none _).mp hl
      simp only
      exact ⟨by simp [hnil], fun v hv => by simp at hv⟩
    | some m =>
      have hspec := listMax_spec _ m hl
      have hmpos : 0 < m := by
        obtain ⟨r, hr, hrm⟩ := List.mem_filterMap.mp hspec.1
        exact hpos r hr m hrm
      simp only [if_pos hmpos]
      constructor
      · constructor
        · intro h; simp at h
        · intro h
          rw [h] at hl
          simp [listMax] at hl
      · intro v hv
        have hmv : m = v := by injection hv
        subst hmv
        exact hspec

theorem dailyMax_correct_witness :
    dailyMaxAQI [⟨0, some 5⟩, ⟨0, some 3⟩] 0 = some 5
    ∧ (dailyMaxAQI [⟨0, some 5⟩, ⟨0, some 3⟩] 0 = none
        ↔ dayVals [⟨0, some 5⟩, ⟨0, some 3⟩] 0 = []) := by
  have hpos : ∀ r ∈ ([⟨0, some 5⟩, ⟨0, some 3⟩] : List AQIRec),
      ∀ v, r.aqi = some v → 0 < v := by decide
  exact ⟨by decide, ((dailyMax_correct _ hpos).1 0).1⟩

/-- C8 counterexample: the per-day maximum computation is not
order-independent as stated.  The two permutations of the records with
aqi values `0` and `-1` give different maps: record order `[0, -1]`
yields `-1` for the day, order `[-1, 0]` yields `0`. -/
theorem dailyMax_perm_cex :
    ([⟨0, some 0⟩, ⟨0, some (-1)⟩] : List AQIRec).Perm [⟨0, some (-1)⟩, ⟨0, some 0⟩]
    ∧ dailyMaxAQI [⟨0, some 0⟩, ⟨0, some (-1)⟩] 0 = some (-1)
    ∧ dailyMaxAQI [⟨0, some (-1)⟩, ⟨0, some 0⟩] 0 = some 0 :=
  ⟨List.Perm.swap _ _ _, by decide, by decide⟩

/-- C8 (amended): provided every non-null aqi value is nonnegative
(which holds of real AQI data), the per-day maximum fold is
order-independent: permuting the hourly records leaves the whole
day→maxAQI map unchanged. -/
theorem dailyMax_perm_invariant (l₁ l₂ : List AQIRec) (hperm : l₁.Perm l₂)
    (hnn : ∀ r ∈ l₁, ∀ v, r.aqi = some v → 0 ≤ v) :
    ∀ d, dailyMaxAQI l₁ d = dailyMaxAQI l₂ d := by
  intro d
  have hnn₂ : ∀ r ∈ l₂, ∀ v, r.aqi = some v → 0 ≤ v :=
    fun r hr => hnn r (hperm.mem_iff.mpr hr)
  rw [dailyMaxAQI_eq_listMax l₁ hnn d, dailyMaxAQI_eq_listMax l₂ hnn₂ d]
  exact listMax_perm _ _ (hperm.filterMap _)

theorem dailyMax_perm_invariant_witness :
    dailyMaxAQI [⟨0, some 5⟩, ⟨1, some 2⟩, ⟨0, some 3⟩] 0 =
      dailyMaxAQI [⟨0, some 3⟩, ⟨0, some 5⟩, ⟨1, some 2⟩] 0 := by
  have hperm : ([⟨0, some 5⟩, ⟨1, some 2⟩, ⟨0, some 3⟩] : List AQIRec).Perm
      [⟨0, some 3⟩, ⟨0, some 5⟩, ⟨1, some 2⟩] := by decide
  have hnn : ∀ r ∈ ([⟨0, some 5⟩, ⟨1, some 2⟩, ⟨0, some 3⟩] : List AQIRec),
      ∀ v, r.aqi = some v → 0 ≤ v := by decide
  exact dailyMax_perm_invariant _ _ hperm hnn 0

/-! ## Claim about the range fetch with day-by-day fallback -/

theorem mem_daysInterval_le (a b d : Nat) (hd : d ∈ daysInterval a b) : d ≤ b := by
  unfold daysInterval at hd
  simp only [List.mem_map, List.mem_range] at hd
  obtain ⟨i, hi, rfl⟩ := hd
  omega

theorem fallbackRecords_eq (l : List Nat) (f : Nat → Except Unit (List AQIRec)) :
    (l.filterMap (fun d => match f d with
        | .ok rs => if rs.isEmpty then none else some rs
        | .error _ => none)).flatten =
    (l.map (fun d => match f d with
        | .ok rs => rs
        | .error _ => [])).flatten := by
  induction l with
  | nil => rfl
  | cons d l ih =>
    simp only [List.map_cons, List.filterMap_cons]
    cases hfd : f d with
    | ok rs =>
      by_cases hrs : rs.isEmpty
      · have hnil : rs = [] := by
          cases rs with
          | nil => rfl
          | cons x xs => simp [List.isEmpty] at hrs
        subst hnil
        simpa using ih
      · simpa [hrs] using ih
    | error e => simpa using ih

/-- C3: when the month window passes and the monthly-weather call
succeeds, `fetchData` first attempts exactly one ranged AQI fetch.  If
the ranged call succeeds, no per-day call is issued.  Only if it fails
does the routine issue exactly one `fetchHourlyAQIData` call per day of
the window, in order; the day→max map is then built from the
concatenation of the records of the days that succeeded, days whose
call failed or returned no records contribute nothing, and no error is
raised on that path. -/
theorem fetchData_range_fallback (today sel : YM) (todayD monthStartD monthEndD : Nat)
    (env : FetchEnv) (wopt : Option (List WRec))
    (hwin : ¬ (isFutureMonth sel today ∨ monthsDiff sel today < -2))
    (hmon : env.monthly = .ok wopt)
    (hstart : monthStartD ≤ min todayD monthEndD) :
    (∀ recs, env.range = .ok recs →
      (fetchData today sel todayD monthStartD monthEndD env).2 = [Call.monthly, Call.range]
      ∧ (fetchData today sel todayD monthStartD monthEndD env).1.aqiData =
          some (dailyMaxAQI recs)
      ∧ (fetchData today sel todayD monthStartD monthEndD env).1.error = none)
    ∧ (∀ e, env.range = .error e →
      (fetchData today sel todayD monthStartD monthEndD env).2 =
        [Call.monthly, Call.range] ++
          (daysInterval monthStartD (min todayD monthEndD)).map Call.day
      ∧ (fetchData today sel todayD monthStartD monthEndD env).1.error = none
      ∧ (fetchData today sel todayD monthStartD monthEndD env).1.aqiData =
          (if ((daysInterval monthStartD (min todayD monthEndD)).map (fun d =>
                match env.day d with
                | .ok rs => rs
                | .error _ => [])).flatten.isEmpty
           then none
           else some (dailyMaxAQI
              ((daysInterval monthStartD (min todayD monthEndD)).map (fun d =>
                match env.day d with
                | .ok rs => rs
                | .error _ => [])).flatten))) := by
  rw [not_or] at hwin
  obtain ⟨hf, ho⟩ := hwin
  obtain ⟨menv, renv, denv⟩ := env
  replace hmon : menv = Except.ok wopt := hmon
  subst hmon
  have hfilter : (daysInterval monthStartD (min todayD monthEndD)).filter
      (fun d => d ≤ todayD) = daysInterval monthStartD (min todayD monthEndD) := by
    rw [List.filter_eq_self]
    intro d hd
    have := mem_daysInterval_le _ _ _ hd
    simp
    omega
  constructor
  · intro recs hrange
    replace hrange : renv = Except.ok recs := hrange
    subst hrange
    unfold fetchData
    rw [if_neg hf, if_neg ho]
    exact ⟨rfl, rfl, rfl⟩
  · intro e hrange
    replace hrange : renv = Except.error e := hrange
    subst hrange
    unfold fetchData
    rw [if_neg hf, if_neg ho]
    dsimp only
    rw [hfilter, fallbackRecords_eq]
    exact ⟨rfl, rfl, rfl⟩

theorem fetchData_range_fallback_witness :
    (¬ (isFutureMonth ⟨2025, 10⟩ ⟨2025, 10⟩ ∨ monthsDiff ⟨2025, 10⟩ ⟨2025, 10⟩ < -2))
    ∧ (fetchData ⟨2025, 10⟩ ⟨2025, 10⟩ 101 100 130
        ⟨.ok (some []), .error (), fun d => if d = 100 then .ok [⟨100, some 40⟩] else .error ()⟩).2 =
        [Call.monthly, Call.range] ++ (daysInterval 100 (min 101 130)).map Call.day
    ∧ (fetchData ⟨2025, 10⟩ ⟨2025, 10⟩ 101 100 130
        ⟨.ok (some []), .error (), fun d => if d = 100 then .ok [⟨100, some 40⟩] else .error ()⟩).1.error = none := by
  have h := (fetchData_range_fallback ⟨2025, 10⟩ ⟨2025, 10⟩ 101 100 130
      ⟨.ok (some []), .error (), fun d => if d = 100 then .ok [⟨100, some 40⟩] else .error ()⟩
      (some []) (by simp [isFutureMonth, monthsDiff]) rfl (by norm_num)).2 () rfl
  exact ⟨by simp [isFutureMonth, monthsDiff], h.1, h.2.1⟩

/-! ## Claim about the mid-fetch error classification -/

theorem fetchData_monthly_error_noData (today sel : YM) (todayD monthStartD monthEndD : Nat)
    (env : FetchEnv) (k : ErrKind)
    (hwin : ¬ (isFutureMonth sel today ∨ monthsDiff sel today < -2))
    (hmon : env.monthly = .error k) (hk : innerNoData k) :
    fetchData today sel todayD monthStartD monthEndD env =
      (⟨false, none, some [], none⟩, [Call.monthly]) := by
  rw [not_or] at hwin
  obtain ⟨hf, ho⟩ := hwin
  obtain ⟨menv, renv, denv⟩ := env
  replace hmon : menv = Except.error k := hmon
  subst hmon
  unfold fetchData
  rw [if_neg hf, if_neg ho]
  dsimp only
  rw [if_pos hk]

theorem fetchData_monthly_error_classified (today sel : YM) (todayD monthStartD monthEndD : Nat)
    (env : FetchEnv) (k : ErrKind)
    (hwin : ¬ (isFutureMonth sel today ∨ monthsDiff sel today < -2))
    (hmon : env.monthly = .error k) (hk : ¬ innerNoData k)
    (hstart : monthStartD ≤ todayD) :
    fetchData today sel todayD monthStartD monthEndD env =
      (⟨false, some (outerClassify today sel k), some [], none⟩, [Call.monthly]) := by
  rw [not_or] at hwin
  obtain ⟨hf, ho⟩ := hwin
  obtain ⟨menv, renv, denv⟩ := env
  replace hmon : menv = Except.error k := hmon
  subst hmon
  unfold fetchData
  rw [if_neg hf, if_neg ho]
  dsimp only
  rw [if_neg hk, if_neg (by rintro ⟨_, hlt⟩; omega)]

theorem thrownMsg_bits (k : ErrKind) (m : MsgBits) (hraw : rawMsg k = m) :
    (thrownMsg k).inNoData = m.inNoData ∧ (thrownMsg k).jsonNaN = m.jsonNaN
    ∧ (thrownMsg k).out404 = m.out404 ∧ (thrownMsg k).in500 = m.in500
    ∧ (thrownMsg k).out400 = m.out400 ∧ (thrownMsg k).out503 = m.out503
    ∧ (thrownMsg k).outNet = (m.outNet || !m.marker) := by
  unfold thrownMsg
  rw [hraw]
  cases hmk : m.marker <;> simp [wrapBits]

theorem outerClassify_raw (today sel : YM) (k : ErrKind) (m : MsgBits)
    (hf : ¬ isFutureMonth sel today) (ho : ¬ monthsDiff sel today < -2)
    (hraw : rawMsg k = m) :
    outerClassify today sel k = msgClassify m := by
  obtain ⟨h1, h2, h3, h4, h5, h6, h7⟩ := thrownMsg_bits k m hraw
  have e1 : msgHasJSON k ↔ m.jsonNaN = true := by unfold msgHasJSON; rw [h2]
  have e2 : outer404 k ↔ m.out404 = true := by unfold outer404; rw [h3]
  have e3 : innerServer k ↔ m.in500 = true := by unfold innerServer; rw [h4]
  have e4 : outer400 k ↔ m.out400 = true := by unfold outer400; rw [h5]
  have e5 : outer503 k ↔ m.out503 = true := by unfold outer503; rw [h6]
  have e6 : outerNetwork k ↔ (m.outNet || !m.marker) = true := by unfold outerNetwork; rw [h7]
  unfold outerClassify msgClassify
  rw [if_neg hf, if_neg ho, if_neg hf]
  simp only [e1, e2, e3, e4, e5, e6]

/-- C7 counterexample: the claim fails as stated.  A mid-fetch failure
with HTTP status 400 is caught, but it is mapped to the specific
invalid-request message, not to a generic message as the claim
demands for every status other than 404, 500 and 503. -/
theorem fetchData_errors_cex :
    (fetchData ⟨2025, 10⟩ ⟨2025, 10⟩ 101 100 130
      ⟨.error (.httpStatus 400), .ok [], fun _ => .ok []⟩).1.error =
        some ErrMsg.invalidRequest
    ∧ ErrMsg.invalidRequest ≠ ErrMsg.generic
    ∧ renderView (fetchData ⟨2025, 10⟩ ⟨2025, 10⟩ 101 100 130
        ⟨.error (.httpStatus 400), .ok [], fun _ => .ok []⟩).1 =
        CalView.errorView ErrMsg.invalidRequest := by
  refine ⟨?_, by decide, ?_⟩ <;>
    rw [fetchData_monthly_error_classified _ _ _ _ _ _ _ (by decide) rfl (by decide) (by decide)] <;>
    rfl

/-- C7 (amended): every error of the monthly fetch is caught — the
routine always terminates in a rendered state with `loading` cleared
and only the monthly call issued, never rethrowing — and is classified
through the probed substrings of the received message: a 404 clears
the error and renders the inline no-data notice; 500 renders the
transient server-error message and 503 the transient
service-unavailable message; a 400 the invalid-request message; a JSON
parse failure the invalid-data message; a network failure the network
message.  An unrecognised HTTP status yields the generic message only
when the error body supplies no usable message, so the default
"Monthly Weather API error" text is thrown unwrapped; when the body
does supply the message (its `message`/`error` field or a short body
text) — and likewise for any other exception — the fixed overrides do
not apply, the rethrow wraps the text, and the catch classifies it by
the probes of the body text itself: a no-data phrase is swallowed with
an empty calendar and no error, and a body matching none of the probed
tokens renders the network message (because the wrapper prefix
contains "Failed to fetch"), not the generic one.  For the recognised
statuses 404, 400, 500 and 503 the error body is ignored. -/
theorem fetchData_error_classification (today sel : YM) (todayD monthStartD monthEndD : Nat)
    (env : FetchEnv) (k : ErrKind)
    (hwin : ¬ (isFutureMonth sel today ∨ monthsDiff sel today < -2))
    (hmon : env.monthly = .error k)
    (hstart : monthStartD ≤ todayD) :
    (fetchData today sel todayD monthStartD monthEndD env).2 = [Call.monthly]
    ∧ (fetchData today sel todayD monthStartD monthEndD env).1.loading = false
    ∧ (k = .httpStatus 404 →
        (fetchData today sel todayD monthStartD monthEndD env).1.error = none
        ∧ renderView (fetchData today sel todayD monthStartD monthEndD env).1 =
            CalView.noWeatherDataView)
    ∧ (k = .httpStatus 500 →
        (fetchData today sel todayD monthStartD monthEndD env).1.error =
            some ErrMsg.serverError
        ∧ renderView (fetchData today sel todayD monthStartD monthEndD env).1 =
            CalView.errorView ErrMsg.serverError)
    ∧ (k = .httpStatus 503 →
        (fetchData today sel todayD monthStartD monthEndD env).1.error =
            some ErrMsg.unavailable
        ∧ renderView (fetchData today sel todayD monthStartD monthEndD env).1 =
            CalView.errorView ErrMsg.unavailable)
    ∧ (k = .httpStatus 400 →
        (fetchData today sel todayD monthStartD monthEndD env).1.error =
            some ErrMsg.invalidRequest
        ∧ renderView (fetchData today sel todayD monthStartD monthEndD env).1 =
            CalView.errorView ErrMsg.invalidRequest)
    ∧ (k = .parseFail →
        (fetchData today sel todayD monthStartD monthEndD env).1.error =
            some ErrMsg.invalidData
        ∧ renderView (fetchData today sel todayD monthStartD monthEndD env).1 =
            CalView.errorView ErrMsg.invalidData)
    ∧ (k = .networkFail →
        (fetchData today sel todayD monthStartD monthEndD env).1.error =
            some ErrMsg.networkError
        ∧ renderView (fetchData today sel todayD monthStartD monthEndD env).1 =
            CalView.errorView ErrMsg.networkError)
    ∧ (∀ n, k = .httpStatus n → n ≠ 400 → n ≠ 404 → n ≠ 500 → n ≠ 503 →
        (fetchData today sel todayD monthStartD monthEndD env).1.error =
            some ErrMsg.generic
        ∧ renderView (fetchData today sel todayD monthStartD monthEndD env).1 =
            CalView.errorView ErrMsg.generic)
    ∧ (∀ n m, (n = 404 ∨ n = 400 ∨ n = 500 ∨ n = 503) →
        thrownMsg (.httpBody n m) = thrownMsg (.httpStatus n))
    ∧ (∀ n m, (k = .httpBody n m ∧ n ≠ 400 ∧ n ≠ 404 ∧ n ≠ 500 ∧ n ≠ 503 ∨ k = .otherFail m) →
        m.inNoData = true →
        (fetchData today sel todayD monthStartD monthEndD env).1.error = none
        ∧ renderView (fetchData today sel todayD monthStartD monthEndD env).1 =
            CalView.noWeatherDataView)
    ∧ (∀ n m, (k = .httpBody n m ∧ n ≠ 400 ∧ n ≠ 404 ∧ n ≠ 500 ∧ n ≠ 503 ∨ k = .otherFail m) →
        m.inNoData = false →
        (fetchData today sel todayD monthStartD monthEndD env).1.error =
            some (msgClassify m)
        ∧ renderView (fetchData today sel todayD monthStartD monthEndD env).1 =
            CalView.errorView (msgClassify m))
    ∧ msgClassify ⟨false, false, false, false, false, false, false, false⟩ =
        ErrMsg.networkError := by
  have hwin2 := hwin
  rw [not_or] at hwin2
  obtain ⟨hf, ho⟩ := hwin2
  refine ⟨?_, ?_, ?_, ?_, ?_, ?_, ?_, ?_, ?_, ?_, ?_, ?_, ?_⟩
  · by_cases hk : innerNoData k
    · rw [fetchData_monthly_error_noData _ _ _ _ _ _ _ hwin hmon hk]
    · rw [fetchData_monthly_error_classified _ _ _ _ _ _ _ hwin hmon hk hstart]
  · by_cases hk : innerNoData k
    · rw [fetchData_monthly_error_noData _ _ _ _ _ _ _ hwin hmon hk]
    · rw [fetchData_monthly_error_classified _ _ _ _ _ _ _ hwin hmon hk hstart]
  · intro hk
    subst hk
    rw [fetchData_monthly_error_noData _ _ _ _ _ _ _ hwin hmon (by decide)]
    exact ⟨rfl, rfl⟩
  · intro hk
    subst hk
    rw [fetchData_monthly_error_classified _ _ _ _ _ _ _ hwin hmon (by decide) hstart]
    have hcls : outerClassify today sel (.httpStatus 500) = ErrMsg.serverError := by
      unfold outerClassify
      rw [if_neg hf, if_neg ho, if_neg (by decide), if_neg (by decide),
        if_pos (by decide : innerServer (.httpStatus 500)), if_neg hf]
    rw [hcls]
    exact ⟨rfl, rfl⟩
  · intro hk
    subst hk
    rw [fetchData_monthly_error_classified _ _ _ _ _ _ _ hwin hmon (by decide) hstart]
    have hcls : outerClassify today sel (.httpStatus 503) = ErrMsg.unavailable := by
      unfold outerClassify
      rw [if_neg hf, if_neg ho, if_neg (by decide), if_neg (by decide), if_neg (by decide),
        if_neg (by decide), if_pos (by decide : outer503 (.httpStatus 503))]
    rw [hcls]
    exact ⟨rfl, rfl⟩
  · intro hk
    subst hk
    rw [fetchData_monthly_error_classified _ _ _ _ _ _ _ hwin hmon (by decide) hstart]
    have hcls : outerClassify today sel (.httpStatus 400) = ErrMsg.invalidRequest := by
      unfold outerClassify
      rw [if_neg hf, if_neg ho, if_neg (by decide), if_neg (by decide), if_neg (by decide),
        if_pos (by decide : outer400 (.httpStatus 400))]
    rw [hcls]
    exact ⟨rfl, rfl⟩
  · intro hk
    subst hk
    rw [fetchData_monthly_error_classified _ _ _ _ _ _ _ hwin hmon (by decide) hstart]
    have hcls : outerClassify today sel .parseFail = ErrMsg.invalidData := by
      unfold outerClassify
      rw [if_neg hf, if_neg ho, if_pos (by decide : msgHasJSON .parseFail)]
    rw [hcls]
    exact ⟨rfl, rfl⟩
  · intro hk
    subst hk
    rw [fetchData_monthly_error_classified _ _ _ _ _ _ _ hwin hmon (by decide) hstart]
    have hcls : outerClassify today sel .networkFail = ErrMsg.networkError := by
      unfold outerClassify
      rw [if_neg hf, if_neg ho, if_neg (by decide), if_neg (by decide), if_neg (by decide),
        if_neg (by decide), if_neg (by decide), if_pos (by decide)]
    rw [hcls]
    exact ⟨rfl, rfl⟩
  · intro n hk hn400 hn404 hn500 hn503
    subst hk
    have hraw : rawMsg (.httpStatus n) = bitsDefault := by
      simp [rawMsg, statusBits, hn400, hn404, hn500, hn503]
    have hth : thrownMsg (.httpStatus n) = bitsDefault := by
      unfold thrownMsg
      rw [hraw]
      decide
    have hnN : ¬ innerNoData (.httpStatus n) := by
      unfold innerNoData
      rw [hth]
      decide
    rw [fetchData_monthly_error_classified _ _ _ _ _ _ _ hwin hmon hnN hstart]
    have hcls : outerClassify today sel (.httpStatus n) = ErrMsg.generic := by
      rw [outerClassify_raw today sel _ bitsDefault hf ho hraw]
      decide
    rw [hcls]
    exact ⟨rfl, rfl⟩
  · intro n m hn
    rcases hn with rfl | rfl | rfl | rfl <;> rfl
  · intro n m hk hnd
    have hraw : rawMsg k = m := by
      rcases hk with ⟨rfl, hn400, hn404, hn500, hn503⟩ | rfl
      · simp [rawMsg, statusBits, hn400, hn404, hn500, hn503]
      · rfl
    have hkN : innerNoData k := by
      unfold innerNoData
      rw [(thrownMsg_bits k m hraw).1]
      exact hnd
    rw [fetchData_monthly_error_noData _ _ _ _ _ _ _ hwin hmon hkN]
    exact ⟨rfl, rfl⟩
  · intro n m hk hnd
    have hraw : rawMsg k = m := by
      rcases hk with ⟨rfl, hn400, hn404, hn500, hn503⟩ | rfl
      · simp [rawMsg, statusBits, hn400, hn404, hn500, hn503]
      · rfl
    have hnN : ¬ innerNoData k := by
      unfold innerNoData
      rw [(thrownMsg_bits k m hraw).1, hnd]
      decide
    rw [fetchData_monthly_error_classified _ _ _ _ _ _ _ hwin hmon hnN hstart,
      outerClassify_raw today sel k m hf ho hraw]
    exact ⟨rfl, rfl⟩
  · rfl

theorem fetchData_error_classification_witness :
    (fetchData ⟨2025, 10⟩ ⟨2025, 9⟩ 101 70 99
      ⟨.error .networkFail, .ok [], fun _ => .ok []⟩).2 = [Call.monthly]
    ∧ (fetchData ⟨2025, 10⟩ ⟨2025, 9⟩ 101 70 99
        ⟨.error .networkFail, .ok [], fun _ => .ok []⟩).1.error =
        some ErrMsg.networkError
    ∧ (fetchData ⟨2025, 10⟩ ⟨2025, 9⟩ 101 70 99
        ⟨.error (.httpBody 502 ⟨false, false, false, false, false, false, false, false⟩),
          .ok [], fun _ => .ok []⟩).1.error = some ErrMsg.networkError := by
  have h := fetchData_error_classification ⟨2025, 10⟩ ⟨2025, 9⟩ 101 70 99
      ⟨.error .networkFail, .ok [], fun _ => .ok []⟩ .networkFail
      (by decide) rfl (by decide)
  obtain ⟨htr, -, -, -, -, -, -, hnet, -⟩ := h
  have h2 := fetchData_error_classification ⟨2025, 10⟩ ⟨2025, 9⟩ 101 70 99
      ⟨.error (.httpBody 502 ⟨false, false, false, false, false, false, false, false⟩),
        .ok [], fun _ => .ok []⟩
      (.httpBody 502 ⟨false, false, false, false, false, false, false, false⟩)
      (by decide) rfl (by decide)
  obtain ⟨-, -, -, -, -, -, -, -, -, -, -, hchain, -⟩ := h2
  have h3 := (hchain 502 ⟨false, false, false, false, false, false, false, false⟩
      (Or.inl ⟨rfl, by decide, by decide, by decide, by decide⟩) rfl).1
  rw [h3]
  exact ⟨htr, (hnet rfl).1, rfl⟩

/-! ## Mutual induction over JSON values, and scanner lemmas -/

theorem json_mutualInd (P : Json → Prop) (PE : List Json → Prop)
    (PN : List (List Char × Json) → Prop)
    (hnull : P .null) (hbool : ∀ b, P (.bool b)) (hnum : ∀ ds, P (.num ds))
    (hnan : P .numNaN) (hinf : P .numInf) (hninf : P .numNegInf)
    (hstr : ∀ s, P (.str s))
    (harr : ∀ xs, PE xs → P (.arr xs))
    (hobj : ∀ es, PN es → P (.obj es))
    (hEnil : PE [])
    (hEcons : ∀ x xs, P x → PE xs → PE (x :: xs))
    (hNnil : PN [])
    (hNcons : ∀ k v es, P v → PN es → PN ((k, v) :: es)) :
    (∀ v, P v) ∧ (∀ xs, PE xs) ∧ (∀ es, PN es) := by
  have hP : ∀ v, P v := fun v =>
    Json.rec (motive_1 := P) (motive_2 := PE) (motive_3 := PN)
      (motive_4 := fun kv => P kv.2)
      hnull hbool hnum hnan hinf hninf hstr harr hobj hEnil hEcons hNnil
      (fun head tail h4 h3 => by
        obtain ⟨k, w⟩ := head
        exact hNcons k w tail h4 h3)
      (fun _ _ hw => hw) v
  refine ⟨hP, ?_, ?_⟩
  · intro xs
    induction xs with
    | nil => exact hEnil
    | cons x xs ih => exact hEcons x xs (hP x) ih
  · intro es
    induction es with
    | nil => exact hNnil
    | cons e es ih =>
      obtain ⟨k, w⟩ := e
      exact hNcons k w es (hP w) ih

theorem isWsChar_iff (c : Char) :
    isWsChar c = true ↔ (c = ' ' ∨ c = '\t' ∨ c = '\n' ∨ c = '\r') := by
  unfold isWsChar
  simp [Bool.or_eq_true, beq_iff_eq]
  tauto

theorem not_ws_of_digit (c : Char) (h : c.isDigit = true) : isWsChar c = false := by
  by_contra hc
  rw [Bool.not_eq_false, isWsChar_iff] at hc
  rcases hc with rfl | rfl | rfl | rfl <;> exact absurd h (by decide)

theorem validStrChar_spec (c : Char) (h : validStrChar c = true) :
    c ≠ '"' ∧ c ≠ '\\' ∧ c ≠ ':' := by
  simp only [validStrChar, Bool.not_eq_true', Bool.or_eq_false_iff, beq_eq_false_iff_ne] at h
  exact ⟨h.1.1, h.1.2, h.2⟩

theorem skipWs_cons_of_not_ws (c : Char) (cs : List Char) (h : isWsChar c = false) :
    skipWs (c :: cs) = c :: cs := by
  simp [skipWs, h]

theorem skipWs_cons_of_ws (c : Char) (cs : List Char) (h : isWsChar c = true) :
    skipWs (c :: cs) = skipWs cs := by
  simp [skipWs, h]

theorem matchTok_prefix (tok rest : List Char) : matchTok tok (tok ++ rest) = some rest := by
  induction tok with
  | nil => rfl
  | cons t ts ih => simp [matchTok, ih]

theorem matchTok_ne (t : Char) (ts : List Char) (c : Char) (cs : List Char) (h : c ≠ t) :
    matchTok (t :: ts) (c :: cs) = none := by
  simp [matchTok, h]

theorem matchTok_length (tok : List Char) : ∀ cs rest : List Char,
    matchTok tok cs = some rest → rest.length ≤ cs.length := by
  induction tok with
  | nil =>
    intro cs rest h
    simp only [matchTok] at h
    cases h
    exact le_rfl
  | cons t ts ih =>
    intro cs rest h
    cases cs with
    | nil => simp [matchTok] at h
    | cons c cs =>
      simp only [matchTok] at h
      by_cases hc : c = t
      · rw [if_pos hc] at h
        exact le_trans (ih cs rest h) (by simp)
      · rw [if_neg hc] at h
        cases h

theorem sanMatch_length (tok : List Char) (am : Bool) : ∀ cs rest : List Char,
    sanMatch tok am cs = some rest → rest.length ≤ cs.length := by
  intro cs
  induction cs with
  | nil =>
    intro rest h
    unfold sanMatch at h
    exact matchTok_length tok [] rest h
  | cons c cs ih =>
    intro rest h
    unfold sanMatch at h
    by_cases hw : isWsChar c
    · rw [if_pos hw] at h
      exact le_trans (ih rest h) (by simp)
    · rw [if_neg hw] at h
      by_cases hm : am = true ∧ c = '-'
      · rw [if_pos hm] at h
        exact le_trans (matchTok_length tok cs rest h) (by simp)
      · rw [if_neg hm] at h
        exact matchTok_length tok (c :: cs) rest h

theorem sanitizeByF_fuel (tok : List Char) (am : Bool) : ∀ f cs, cs.length ≤ f →
    sanitizeByF tok am f cs = sanitizeBy tok am cs := by
  intro f
  induction f using Nat.strong_induction_on with
  | _ f ih =>
    intro cs hlen
    match f, cs with
    | 0, [] => rfl
    | f + 1, [] => rfl
    | 0, c :: cs => simp at hlen
    | f + 1, c :: cs =>
      have hcs : cs.length ≤ f := by simpa using hlen
      show sanitizeByF tok am (f + 1) (c :: cs) = sanitizeByF tok am (c :: cs).length (c :: cs)
      rw [show (c :: cs).length = cs.length + 1 from rfl]
      simp only [sanitizeByF]
      by_cases hc : c = ':'
      · simp only [if_pos hc]
        cases hm : sanMatch tok am cs with
        | some rest =>
          have hr := sanMatch_length tok am cs rest hm
          dsimp only
          rw [ih f (Nat.lt_succ_self f) rest (le_trans hr hcs),
            ih cs.length (Nat.lt_succ_of_le hcs) rest hr]
        | none =>
          dsimp only
          rw [ih f (Nat.lt_succ_self f) cs hcs,
            ih cs.length (Nat.lt_succ_of_le hcs) cs le_rfl]
      · simp only [if_neg hc]
        rw [ih f (Nat.lt_succ_self f) cs hcs,
          ih cs.length (Nat.lt_succ_of_le hcs) cs le_rfl]

theorem sanitizeBy_cons (tok : List Char) (am : Bool) (c : Char) (cs : List Char) :
    sanitizeBy tok am (c :: cs) =
      if c = ':' then
        match sanMatch tok am cs with
        | some rest => ':' :: ' ' :: 'n' :: 'u' :: 'l' :: 'l' :: sanitizeBy tok am rest
        | none => ':' :: sanitizeBy tok am cs
      else c :: sanitizeBy tok am cs := by
  show sanitizeByF tok am (cs.length + 1) (c :: cs) = _
  simp only [sanitizeByF]
  by_cases hc : c = ':'
  · simp only [if_pos hc]
    cases hm : sanMatch tok am cs with
    | some rest =>
      have hr := sanMatch_length tok am cs rest hm
      dsimp only
      rw [sanitizeByF_fuel tok am cs.length rest hr]
    | none =>
      rfl
  · simp only [if_neg hc]
    rfl

theorem sanitizeBy_no_colon (tok : List Char) (am : Bool) :
    ∀ (l rest : List Char), (∀ c ∈ l, c ≠ ':') →
    sanitizeBy tok am (l ++ rest) = l ++ sanitizeBy tok am rest := by
  intro l
  induction l with
  | nil => intro rest _; rfl
  | cons c l ih =>
    intro rest h
    rw [List.cons_append, sanitizeBy_cons, if_neg (h c (List.mem_cons_self _ _)),
      ih rest (fun x hx => h x (List.mem_cons_of_mem _ hx)), List.cons_append]

theorem spanStr_closed (s : List Char) (r : List Char) (h : ∀ c ∈ s, c ≠ '"') :
    spanStr (s ++ '"' :: r) = some (s, r) := by
  induction s with
  | nil => simp [spanStr]
  | cons c s ih =>
    rw [List.cons_append]
    unfold spanStr
    rw [if_neg (h c (List.mem_cons_self _ _)),
      ih (fun x hx => h x (List.mem_cons_of_mem _ hx))]

theorem takeWhile_digits (ds : List Char) (rest : List Char)
    (hds : ∀ c ∈ ds, c.isDigit = true)
    (hr : ∀ d, rest.head? = some d → d.isDigit = false) :
    (ds ++ rest).takeWhile Char.isDigit = ds
    ∧ (ds ++ rest).dropWhile Char.isDigit = rest := by
  induction ds with
  | nil =>
    cases rest with
    | nil => simp
    | cons c r =>
      have hc := hr c rfl
      simp [List.takeWhile_cons, List.dropWhile_cons, hc]
  | cons c ds ih =>
    have hc := hds c (List.mem_cons_self _ _)
    obtain ⟨h1, h2⟩ := ih (fun x hx => hds x (List.mem_cons_of_mem _ hx))
    simp [List.takeWhile_cons, List.dropWhile_cons, hc, h1, h2]

theorem render_start (v : Json) (hwf : wfJ v = true) :
    ∃ c t, render v = c :: t ∧ isWsChar c = false ∧
      ((c = lbraceC ∨ c = '[' ∨ c = '"' ∨ c = 'n' ∨ c = 't' ∨ c = 'f' ∨ c.isDigit = true)
        ∨ (v = .numNaN ∧ c = 'N') ∨ (v = .numInf ∧ c = 'I')
        ∨ (v = .numNegInf ∧ c = '-')) := by
  cases v with
  | null => exact ⟨'n', _, rfl, by decide, Or.inl (by decide)⟩
  | bool b =>
    cases b with
    | true => exact ⟨'t', _, rfl, by decide, Or.inl (by decide)⟩
    | false => exact ⟨'f', _, rfl, by decide, Or.inl (by decide)⟩
  | num ds =>
    simp only [wfJ, Bool.and_eq_true] at hwf
    obtain ⟨hne, hall⟩ := hwf
    cases ds with
    | nil => simp at hne
    | cons d ds =>
      have hd : d.isDigit = true := by
        have := List.all_eq_true.mp hall d (List.mem_cons_self _ _)
        simpa using this
      exact ⟨d, ds, rfl, not_ws_of_digit d hd, Or.inl (by simp [hd])⟩
  | numNaN => exact ⟨'N', _, rfl, by decide, Or.inr (Or.inl ⟨rfl, rfl⟩)⟩
  | numInf => exact ⟨'I', _, rfl, by decide, Or.inr (Or.inr (Or.inl ⟨rfl, rfl⟩))⟩
  | numNegInf => exact ⟨'-', _, rfl, by decide, Or.inr (Or.inr (Or.inr ⟨rfl, rfl⟩))⟩
  | str s => exact ⟨'"', _, rfl, by decide, Or.inl (by decide)⟩
  | arr xs => exact ⟨'[', _, rfl, by decide, Or.inl (by decide)⟩
  | obj es => exact ⟨lbraceC, _, rfl, by decide, Or.inl (by decide)⟩

/-! ## The sanitising passes rewrite exactly the object-member tokens -/

theorem sanitizeBy_render_subBy (tok : List Char) (am : Bool) (p : Json → Bool)
    (Hhit : ∀ w r, p w = true → sanMatch tok am (' ' :: (render w ++ r)) = some r)
    (Hmiss : ∀ w r, wfJ w = true → p w = false →
        sanMatch tok am (' ' :: (render w ++ r)) = none) :
    (∀ v, wfJ v = true → ∀ rest,
        sanitizeBy tok am (render v ++ rest) = render (subBy p v) ++ sanitizeBy tok am rest)
    ∧ (∀ xs, wfElems xs = true → ∀ rest,
        (sanitizeBy tok am (renderElems xs ++ rest) =
            renderElems (subByElems p xs) ++ sanitizeBy tok am rest)
        ∧ (sanitizeBy tok am (renderElemsTail xs ++ rest) =
            renderElemsTail (subByElems p xs) ++ sanitizeBy tok am rest))
    ∧ (∀ es, wfEntries es = true → ∀ rest,
        (sanitizeBy tok am (renderEntries es ++ rest) =
            renderEntries (subByEntries p es) ++ sanitizeBy tok am rest)
        ∧ (sanitizeBy tok am (renderEntriesTail es ++ rest) =
            renderEntriesTail (subByEntries p es) ++ sanitizeBy tok am rest)) := by
  refine json_mutualInd _ _ _ ?_ ?_ ?_ ?_ ?_ ?_ ?_ ?_ ?_ ?_ ?_ ?_ ?_
  · exact fun _ rest => sanitizeBy_no_colon tok am _ rest (by decide)
  · intro b
    cases b with
    | true => exact fun _ rest => sanitizeBy_no_colon tok am _ rest (by decide)
    | false => exact fun _ rest => sanitizeBy_no_colon tok am _ rest (by decide)
  · intro ds hwf rest
    simp only [wfJ, Bool.and_eq_true] at hwf
    refine sanitizeBy_no_colon tok am _ rest ?_
    intro c hc heq
    have hd : c.isDigit = true := by
      have := List.all_eq_true.mp hwf.2 c hc
      simpa using this
    subst heq
    exact absurd hd (by decide)
  · exact fun _ rest => sanitizeBy_no_colon tok am _ rest (by decide)
  · exact fun _ rest => sanitizeBy_no_colon tok am _ rest (by decide)
  · exact fun _ rest => sanitizeBy_no_colon tok am _ rest (by decide)
  · intro s hwf rest
    refine sanitizeBy_no_colon tok am _ rest ?_
    intro c hc
    have hre : render (.str s) = '"' :: (s ++ ['"']) := rfl
    rw [hre] at hc
    rcases List.mem_cons.mp hc with rfl | hc2
    · decide
    rcases List.mem_append.mp hc2 with hcs | hcq
    · have hv : validStrChar c = true := by
        have hwf' : s.all validStrChar = true := hwf
        exact List.all_eq_true.mp hwf' c hcs
      exact (validStrChar_spec c hv).2.2
    · have : c = '"' := by simpa using hcq
      subst this
      decide
  · intro xs IH hwf rest
    have hIH := IH hwf (']' :: rest)
    simp only [render, subBy, List.cons_append, List.append_assoc, List.nil_append]
    rw [sanitizeBy_cons, if_neg (by decide : ¬('[' = ':'))]
    rw [hIH.1]
    rw [sanitizeBy_cons, if_neg (by decide : ¬(']' = ':'))]
  · intro es IH hwf rest
    have hIH := IH hwf (rbraceC :: rest)
    simp only [render, subBy, List.cons_append, List.append_assoc, List.nil_append]
    rw [sanitizeBy_cons, if_neg (by decide : ¬(lbraceC = ':'))]
    rw [hIH.1]
    rw [sanitizeBy_cons, if_neg (by decide : ¬(rbraceC = ':'))]
  · intro _ rest
    exact ⟨rfl, rfl⟩
  · intro x xs Px PXs hwf rest
    simp only [wfElems, Bool.and_eq_true] at hwf
    obtain ⟨hwx, hwxs⟩ := hwf
    constructor
    · simp only [renderElems, subByElems, List.append_assoc]
      rw [Px hwx (renderElemsTail xs ++ rest), (PXs hwxs rest).2]
    · simp only [renderElemsTail, subByElems, List.cons_append, List.append_assoc]
      rw [sanitizeBy_cons, if_neg (by decide : ¬(',' = ':'))]
      rw [Px hwx (renderElemsTail xs ++ rest), (PXs hwxs rest).2]
  · intro _ rest
    exact ⟨rfl, rfl⟩
  · intro k v es Pv PNes hwf rest
    simp only [wfEntries, Bool.and_eq_true] at hwf
    obtain ⟨⟨hwk, hwv⟩, hwes⟩ := hwf
    have hk : ∀ c ∈ k, c ≠ ':' := by
      intro c hc
      exact (validStrChar_spec c (List.all_eq_true.mp hwk c hc)).2.2
    constructor
    · simp only [renderEntries, subByEntries, List.cons_append, List.append_assoc]
      rw [sanitizeBy_cons, if_neg (by decide : ¬('"' = ':'))]
      rw [sanitizeBy_no_colon tok am k _ hk]
      rw [sanitizeBy_cons, if_neg (by decide : ¬('"' = ':'))]
      rw [sanitizeBy_cons, if_pos rfl]
      by_cases hp : p v = true
      · rw [Hhit v (renderEntriesTail es ++ rest) hp]
        dsimp only
        rw [(PNes hwes rest).2, if_pos hp]
        rfl
      · have hp' : p v = false := by
          cases hpv : p v
          · rfl
          · exact absurd hpv hp
        rw [Hmiss v (renderEntriesTail es ++ rest) hwv hp']
        dsimp only
        rw [sanitizeBy_cons, if_neg (by decide : ¬(' ' = ':'))]
        rw [Pv hwv (renderEntriesTail es ++ rest), (PNes hwes rest).2, if_neg hp]
    · simp only [renderEntriesTail, subByEntries, List.cons_append, List.append_assoc]
      rw [sanitizeBy_cons, if_neg (by decide : ¬(',' = ':'))]
      rw [sanitizeBy_cons, if_neg (by decide : ¬('"' = ':'))]
      rw [sanitizeBy_no_colon tok am k _ hk]
      rw [sanitizeBy_cons, if_neg (by decide : ¬('"' = ':'))]
      rw [sanitizeBy_cons, if_pos rfl]
      by_cases hp : p v = true
      · rw [Hhit v (renderEntriesTail es ++ rest) hp]
        dsimp only
        rw [(PNes hwes rest).2, if_pos hp]
        rfl
      · have hp' : p v = false := by
          cases hpv : p v
          · rfl
          · exact absurd hpv hp
        rw [Hmiss v (renderEntriesTail es ++ rest) hwv hp']
        dsimp only
        rw [sanitizeBy_cons, if_neg (by decide : ¬(' ' = ':'))]
        rw [Pv hwv (renderEntriesTail es ++ rest), (PNes hwes rest).2, if_neg hp]

theorem sanMatch_nan_hit (w : Json) (r : List Char) (hw : isNaNJ w = true) :
    sanMatch (['N', 'a', 'N']) false (' ' :: (render w ++ r)) = some r := by
  have hwn : w = .numNaN := by
    cases w <;> first | rfl | simp [isNaNJ] at hw
  subst hwn
  show sanMatch (['N', 'a', 'N']) false (' ' :: ('N' :: 'a' :: 'N' :: r)) = some r
  unfold sanMatch
  rw [if_pos (by decide : isWsChar ' ' = true)]
  unfold sanMatch
  rw [if_neg (by decide : ¬ isWsChar 'N' = true), if_neg (by simp)]
  exact matchTok_prefix ['N', 'a', 'N'] r

theorem sanMatch_nan_miss (w : Json) (r : List Char) (hwf : wfJ w = true)
    (hw : isNaNJ w = false) :
    sanMatch (['N', 'a', 'N']) false (' ' :: (render w ++ r)) = none := by
  obtain ⟨c, t, hrt, hcws, hstart⟩ := render_start w hwf
  have hcN : c ≠ 'N' := by
    rcases hstart with hstd | ⟨hwn, _⟩ | ⟨_, rfl⟩ | ⟨_, rfl⟩
    · rcases hstd with rfl | rfl | rfl | rfl | rfl | rfl | hd
      · decide
      · decide
      · decide
      · decide
      · decide
      · decide
      · intro he; subst he; exact absurd hd (by decide)
    · subst hwn; simp [isNaNJ] at hw
    · decide
    · decide
  rw [hrt, List.cons_append]
  unfold sanMatch
  rw [if_pos (by decide : isWsChar ' ' = true)]
  unfold sanMatch
  rw [if_neg (by simp [hcws]), if_neg (by simp)]
  exact matchTok_ne 'N' _ c _ hcN

theorem sanMatch_inf_hit (w : Json) (r : List Char) (hw : isInfJ w = true) :
    sanMatch (['I', 'n', 'f', 'i', 'n', 'i', 't', 'y']) true (' ' :: (render w ++ r)) =
      some r := by
  have hwn : w = .numInf ∨ w = .numNegInf := by
    cases w <;> first | exact Or.inl rfl | exact Or.inr rfl | simp [isInfJ] at hw
  rcases hwn with rfl | rfl
  · show sanMatch _ true
      (' ' :: ('I' :: 'n' :: 'f' :: 'i' :: 'n' :: 'i' :: 't' :: 'y' :: r)) = some r
    unfold sanMatch
    rw [if_pos (by decide : isWsChar ' ' = true)]
    unfold sanMatch
    rw [if_neg (by decide : ¬ isWsChar 'I' = true), if_neg (by simp)]
    exact matchTok_prefix ['I', 'n', 'f', 'i', 'n', 'i', 't', 'y'] r
  · show sanMatch _ true
      (' ' :: ('-' :: ('I' :: 'n' :: 'f' :: 'i' :: 'n' :: 'i' :: 't' :: 'y' :: r))) = some r
    unfold sanMatch
    rw [if_pos (by decide : isWsChar ' ' = true)]
    unfold sanMatch
    rw [if_neg (by decide : ¬ isWsChar '-' = true), if_pos (by simp)]
    exact matchTok_prefix ['I', 'n', 'f', 'i', 'n', 'i', 't', 'y'] r

theorem sanMatch_inf_miss (w : Json) (r : List Char) (hwf : wfJ w = true)
    (hw : isInfJ w = false) :
    sanMatch (['I', 'n', 'f', 'i', 'n', 'i', 't', 'y']) true (' ' :: (render w ++ r)) =
      none := by
  obtain ⟨c, t, hrt, hcws, hstart⟩ := render_start w hwf
  have hcI : c ≠ 'I' ∧ c ≠ '-' := by
    rcases hstart with hstd | ⟨_, rfl⟩ | ⟨hwn, _⟩ | ⟨hwn, _⟩
    · rcases hstd with rfl | rfl | rfl | rfl | rfl | rfl | hd
      · decide
      · decide
      · decide
      · decide
      · decide
      · decide
      · constructor <;> intro he <;> subst he <;> exact absurd hd (by decide)
    · decide
    · subst hwn; simp [isInfJ] at hw
    · subst hwn; simp [isInfJ] at hw
  rw [hrt, List.cons_append]
  unfold sanMatch
  rw [if_pos (by decide : isWsChar ' ' = true)]
  unfold sanMatch
  rw [if_neg (by simp [hcws]), if_neg (by simp [hcI.2])]
  exact matchTok_ne 'I' _ c _ hcI.1

theorem sanitizeNaN_render (v : Json) (hwf : wfJ v = true) :
    sanitizeNaN (render v) = render (subBy isNaNJ v) := by
  have h := (sanitizeBy_render_subBy (['N', 'a', 'N']) false isNaNJ
      sanMatch_nan_hit sanMatch_nan_miss).1 v hwf []
  rw [List.append_nil] at h
  rw [show sanitizeBy (['N', 'a', 'N']) false ([] : List Char) = [] from rfl,
    List.append_nil] at h
  exact h

theorem sanitizeInf_render (v : Json) (hwf : wfJ v = true) :
    sanitizeInf (render v) = render (subBy isInfJ v) := by
  have h := (sanitizeBy_render_subBy (['I', 'n', 'f', 'i', 'n', 'i', 't', 'y']) true isInfJ
      sanMatch_inf_hit sanMatch_inf_miss).1 v hwf []
  rw [List.append_nil] at h
  rw [show sanitizeBy (['I', 'n', 'f', 'i', 'n', 'i', 't', 'y']) true ([] : List Char) = []
      from rfl, List.append_nil] at h
  exact h

/-! ## Structural facts about substitution and `cleanData` -/

theorem wfJ_subBy (p : Json → Bool) :
    (∀ v, wfJ v = true → wfJ (subBy p v) = true)
    ∧ (∀ xs, wfElems xs = true → wfElems (subByElems p xs) = true)
    ∧ (∀ es, wfEntries es = true → wfEntries (subByEntries p es) = true) := by
  refine json_mutualInd _ _ _ ?_ ?_ ?_ ?_ ?_ ?_ ?_ ?_ ?_ ?_ ?_ ?_ ?_
  · exact fun h => h
  · exact fun b h => h
  · exact fun ds h => h
  · exact fun h => h
  · exact fun h => h
  · exact fun h => h
  · exact fun s h => h
  · intro xs IH h
    exact IH h
  · intro es IH h
    exact IH h
  · exact fun h => h
  · intro x xs Px PXs h
    simp only [wfElems, Bool.and_eq_true] at h ⊢
    exact ⟨Px h.1, PXs h.2⟩
  · exact fun h => h
  · intro k v es Pv PNes h
    simp only [wfEntries, Bool.and_eq_true] at h ⊢
    refine ⟨⟨h.1.1, ?_⟩, PNes h.2⟩
    by_cases hp : p v = true
    · rw [if_pos hp]; rfl
    · rw [if_neg hp]; exact Pv h.1.2

theorem cleanData_noNF :
    (∀ v, noNonFinite (cleanData v) = true)
    ∧ (∀ xs, noNonFiniteElems (cleanDataElems xs) = true)
    ∧ (∀ es, noNonFiniteEntries (cleanDataEntries es) = true) := by
  refine json_mutualInd _ _ _ ?_ ?_ ?_ ?_ ?_ ?_ ?_ ?_ ?_ ?_ ?_ ?_ ?_
  · rfl
  · intro b; rfl
  · intro ds; rfl
  · rfl
  · rfl
  · rfl
  · intro s; rfl
  · intro xs IH; exact IH
  · intro es IH; exact IH
  · rfl
  · intro x xs Px PXs
    simp only [cleanDataElems, noNonFiniteElems, Bool.and_eq_true]
    exact ⟨Px, PXs⟩
  · rfl
  · intro k v es Pv PNes
    simp only [cleanDataEntries, noNonFiniteEntries, Bool.and_eq_true]
    exact ⟨Pv, PNes⟩

theorem cleanData_id :
    (∀ v, noNonFinite v = true → cleanData v = v)
    ∧ (∀ xs, noNonFiniteElems xs = true → cleanDataElems xs = xs)
    ∧ (∀ es, noNonFiniteEntries es = true → cleanDataEntries es = es) := by
  refine json_mutualInd _ _ _ ?_ ?_ ?_ ?_ ?_ ?_ ?_ ?_ ?_ ?_ ?_ ?_ ?_
  · intro _; rfl
  · intro b _; rfl
  · intro ds _; rfl
  · intro h; simp [noNonFinite] at h
  · intro h; simp [noNonFinite] at h
  · intro h; simp [noNonFinite] at h
  · intro s _; rfl
  · intro xs IH h
    have : cleanDataElems xs = xs := IH h
    simp only [cleanData, this]
  · intro es IH h
    have : cleanDataEntries es = es := IH h
    simp only [cleanData, this]
  · intro _; rfl
  · intro x xs Px PXs h
    simp only [noNonFiniteElems, Bool.and_eq_true] at h
    simp only [cleanDataElems, Px h.1, PXs h.2]
  · intro _; rfl
  · intro k v es Pv PNes h
    simp only [noNonFiniteEntries, Bool.and_eq_true] at h
    simp only [cleanDataEntries, Pv h.1, PNes h.2]

theorem wfJ_cleanData :
    (∀ v, wfJ v = true → wfJ (cleanData v) = true)
    ∧ (∀ xs, wfElems xs = true → wfElems (cleanDataElems xs) = true)
    ∧ (∀ es, wfEntries es = true → wfEntries (cleanDataEntries es) = true) := by
  refine json_mutualInd _ _ _ ?_ ?_ ?_ ?_ ?_ ?_ ?_ ?_ ?_ ?_ ?_ ?_ ?_
  · exact fun h => h
  · exact fun b h => h
  · exact fun ds h => h
  · exact fun _ => rfl
  · exact fun _ => rfl
  · exact fun _ => rfl
  · exact fun s h => h
  · intro xs IH h; exact IH h
  · intro es IH h; exact IH h
  · exact fun h => h
  · intro x xs Px PXs h
    simp only [wfElems, Bool.and_eq_true] at h ⊢
    exact ⟨Px h.1, PXs h.2⟩
  · exact fun h => h
  · intro k v es Pv PNes h
    simp only [wfEntries, Bool.and_eq_true] at h ⊢
    exact ⟨⟨h.1.1, Pv h.1.2⟩, PNes h.2⟩

theorem cleanData_eq_subs :
    (∀ v, nfOnlyObjVal v = true → subBy isInfJ (subBy isNaNJ v) = cleanData v)
    ∧ (∀ xs, nfElems xs = true → subByElems isInfJ (subByElems isNaNJ xs) = cleanDataElems xs)
    ∧ (∀ es, nfEntries es = true →
        subByEntries isInfJ (subByEntries isNaNJ es) = cleanDataEntries es) := by
  refine json_mutualInd _ _ _ ?_ ?_ ?_ ?_ ?_ ?_ ?_ ?_ ?_ ?_ ?_ ?_ ?_
  · intro _; rfl
  · intro b _; rfl
  · intro ds _; rfl
  · intro h; simp [nfOnlyObjVal] at h
  · intro h; simp [nfOnlyObjVal] at h
  · intro h; simp [nfOnlyObjVal] at h
  · intro s _; rfl
  · intro xs IH h
    have h' : nfElems xs = true := by simpa [nfOnlyObjVal] using h
    have := IH h'
    simp only [subBy, cleanData, this]
  · intro es IH h
    have h' : nfEntries es = true := by simpa [nfOnlyObjVal] using h
    have := IH h'
    simp only [subBy, cleanData, this]
  · intro _; rfl
  · intro x xs Px PXs h
    simp only [nfElems, Bool.and_eq_true] at h
    simp only [subByElems, cleanDataElems, Px h.1, PXs h.2]
  · intro _; rfl
  · intro k v es Pv PNes h
    simp only [nfEntries, Bool.and_eq_true] at h
    have htail := PNes h.2
    cases v with
    | numNaN =>
      simp only [subByEntries, cleanDataEntries, htail]
      rfl
    | numInf =>
      simp only [subByEntries, cleanDataEntries, htail]
      rfl
    | numNegInf =>
      simp only [subByEntries, cleanDataEntries, htail]
      rfl
    | null =>
      simp only [subByEntries, cleanDataEntries, htail]
      rfl
    | bool b =>
      simp only [subByEntries, cleanDataEntries, htail]
      rfl
    | num ds =>
      simp only [subByEntries, cleanDataEntries, htail]
      rfl
    | str s =>
      simp only [subByEntries, cleanDataEntries, htail]
      rfl
    | arr xs =>
      have hval : nfOnlyObjVal (.arr xs) = true := by simpa [nfObjVal] using h.1
      have helems : subByElems isInfJ (subByElems isNaNJ xs) = cleanDataElems xs := by
        have := Pv hval
        simpa [subBy, cleanData] using this
      simp [subByEntries, cleanDataEntries, subBy, cleanData, isNaNJ, isInfJ, htail, helems]
    | obj oes =>
      have hval : nfOnlyObjVal (.obj oes) = true := by simpa [nfObjVal] using h.1
      have hents : subByEntries isInfJ (subByEntries isNaNJ oes) = cleanDataEntries oes := by
        have := Pv hval
        simpa [subBy, cleanData] using this
      simp [subByEntries, cleanDataEntries, subBy, cleanData, isNaNJ, isInfJ, htail, hents]

theorem sizeJ_le_render :
    (∀ v, wfJ v = true → sizeJ v ≤ (render v).length)
    ∧ (∀ xs, wfElems xs = true →
        sizeElems xs ≤ (renderElemsTail xs).length
        ∧ sizeElems xs ≤ (renderElems xs).length + 1)
    ∧ (∀ es, wfEntries es = true →
        sizeEntries es ≤ (renderEntriesTail es).length
        ∧ sizeEntries es ≤ (renderEntries es).length + 1) := by
  refine json_mutualInd _ _ _ ?_ ?_ ?_ ?_ ?_ ?_ ?_ ?_ ?_ ?_ ?_ ?_ ?_
  · intro _; simp [sizeJ, render]
  · intro b _; cases b <;> simp [sizeJ, render]
  · intro ds h
    simp only [wfJ, Bool.and_eq_true] at h
    have : ds ≠ [] := by
      intro he; subst he; simp at h
    have : 0 < ds.length := List.length_pos.mpr this
    simp only [sizeJ, render]
    omega
  · intro _; simp [sizeJ, render]
  · intro _; simp [sizeJ, render]
  · intro _; simp [sizeJ, render]
  · intro s _; simp [sizeJ, render]
  · intro xs IH h
    have := (IH h).2
    simp only [sizeJ, render, List.length_cons, List.length_append]
    simp only [List.length_cons, List.length_nil]
    omega
  · intro es IH h
    have := (IH h).2
    simp only [sizeJ, render, List.length_cons, List.length_append]
    simp only [List.length_cons, List.length_nil]
    omega
  · intro _; simp [sizeElems, renderElems, renderElemsTail]
  · intro x xs Px PXs h
    simp only [wfElems, Bool.and_eq_true] at h
    have hx := Px h.1
    have hxs := (PXs h.2).1
    simp only [sizeElems, renderElems, renderElemsTail, List.length_cons, List.length_append]
    omega
  · intro _; simp [sizeEntries, renderEntries, renderEntriesTail]
  · intro k v es Pv PNes h
    simp only [wfEntries, Bool.and_eq_true] at h
    have hv := Pv h.1.2
    have hes := (PNes h.2).1
    simp only [sizeEntries, renderEntries, renderEntriesTail, List.length_cons,
      List.length_append]
    omega

theorem headNotDigit_elemsTail (xs : List Json) (after : List Char) :
    ∀ d, (renderElemsTail xs ++ (']' :: after)).head? = some d → d.isDigit = false := by
  cases xs with
  | nil =>
    intro d hd
    simp only [renderElemsTail, List.nil_append, List.head?_cons] at hd
    cases hd
    decide
  | cons y ys =>
    intro d hd
    simp only [renderElemsTail, List.cons_append, List.head?_cons] at hd
    cases hd
    decide

theorem headNotDigit_entriesTail (es : List (List Char × Json)) (after : List Char) :
    ∀ d, (renderEntriesTail es ++ (rbraceC :: after)).head? = some d → d.isDigit = false := by
  cases es with
  | nil =>
    intro d hd
    simp only [renderEntriesTail, List.nil_append, List.head?_cons] at hd
    cases hd
    decide
  | cons e es =>
    obtain ⟨k, v⟩ := e
    intro d hd
    simp only [renderEntriesTail, List.cons_append, List.head?_cons] at hd
    cases hd
    decide

theorem render_start_finite (v : Json) (hwf : wfJ v = true) (hnf : noNonFinite v = true) :
    ∃ c t, render v = c :: t ∧ isWsChar c = false ∧ c ≠ ']' ∧ c ≠ rbraceC := by
  obtain ⟨c, t, h1, h2, h3⟩ := render_start v hwf
  refine ⟨c, t, h1, h2, ?_⟩
  rcases h3 with hstd | ⟨rfl, _⟩ | ⟨rfl, _⟩ | ⟨rfl, _⟩
  · rcases hstd with rfl | rfl | rfl | rfl | rfl | rfl | hd
    · exact ⟨by decide, by decide⟩
    · exact ⟨by decide, by decide⟩
    · exact ⟨by decide, by decide⟩
    · exact ⟨by decide, by decide⟩
    · exact ⟨by decide, by decide⟩
    · exact ⟨by decide, by decide⟩
    · constructor <;> intro he <;> subst he <;> exact absurd hd (by decide)
  · simp [noNonFinite] at hnf
  · simp [noNonFinite] at hnf
  · simp [noNonFinite] at hnf

theorem sizeJ_pos (v : Json) : 1 ≤ sizeJ v := by
  cases v <;> simp [sizeJ]

theorem pVal_ws (f : Nat) (c : Char) (cs : List Char) (h : isWsChar c = true) :
    pVal (f + 1) (c :: cs) = pVal (f + 1) cs := by
  unfold pVal
  rw [skipWs_cons_of_ws c cs h]

theorem parse_render :
    (∀ v, wfJ v = true → noNonFinite v = true → noOverflow v = true → ∀ fuel rest,
        sizeJ v ≤ fuel →
        (∀ d, rest.head? = some d → d.isDigit = false) →
        pVal fuel (render v ++ rest) = some (v, rest))
    ∧ (∀ xs, wfElems xs = true → noNonFiniteElems xs = true → noOverflowElems xs = true →
        ∀ fuel after, sizeElems xs ≤ fuel → xs ≠ [] →
        pElems fuel (renderElems xs ++ (']' :: after)) = some (xs, after))
    ∧ (∀ es, wfEntries es = true → noNonFiniteEntries es = true → noOverflowEntries es = true →
        ∀ fuel after, sizeEntries es ≤ fuel → es ≠ [] →
        pEntries fuel (renderEntries es ++ (rbraceC :: after)) = some (es, after)) := by
  refine json_mutualInd _ _ _ ?_ ?_ ?_ ?_ ?_ ?_ ?_ ?_ ?_ ?_ ?_ ?_ ?_
  · -- null
    intro _ _ _ fuel rest hfuel _
    have h1 : 1 ≤ fuel := by simpa [sizeJ] using hfuel
    obtain ⟨f, rfl⟩ : ∃ f, fuel = f + 1 := ⟨fuel - 1, by omega⟩
    rfl
  · -- bool
    intro b _ _ _ fuel rest hfuel _
    have h1 : 1 ≤ fuel := by simpa [sizeJ] using hfuel
    obtain ⟨f, rfl⟩ : ∃ f, fuel = f + 1 := ⟨fuel - 1, by omega⟩
    cases b <;> rfl
  · -- num
    intro ds hwf _ hno fuel rest hfuel hrest
    have h1 : 1 ≤ fuel := by simpa [sizeJ] using hfuel
    obtain ⟨f, rfl⟩ : ∃ f, fuel = f + 1 := ⟨fuel - 1, by omega⟩
    simp only [wfJ, Bool.and_eq_true] at hwf
    obtain ⟨hne, hall⟩ := hwf
    cases ds with
    | nil => simp at hne
    | cons d ds =>
      have hdd : ∀ c ∈ (d :: ds), c.isDigit = true := by
        intro c hc
        have := List.all_eq_true.mp hall c hc
        simpa using this
      have hd : d.isDigit = true := hdd d (List.mem_cons_self _ _)
      obtain ⟨htake, hdrop⟩ := takeWhile_digits (d :: ds) rest hdd hrest
      have hov : dblOverflow (d :: ds) = false := by
        have hno2 : (!dblOverflow (d :: ds)) = true := hno
        cases hdb : dblOverflow (d :: ds)
        · rfl
        · rw [hdb] at hno2
          exact absurd hno2 (by decide)
      show pVal (f + 1) ((d :: ds) ++ rest) = some (.num (d :: ds), rest)
      unfold pVal
      rw [List.cons_append, skipWs_cons_of_not_ws _ _ (not_ws_of_digit d hd)]
      dsimp only
      rw [if_pos hd, show d :: (ds ++ rest) = (d :: ds) ++ rest from rfl, htake, hdrop]
      simp [numToJson, hov]
  · -- numNaN
    intro _ hnf
    simp [noNonFinite] at hnf
  · intro _ hnf
    simp [noNonFinite] at hnf
  · intro _ hnf
    simp [noNonFinite] at hnf
  · -- str
    intro s hwf _ _ fuel rest hfuel _
    have h1 : 1 ≤ fuel := by simpa [sizeJ] using hfuel
    obtain ⟨f, rfl⟩ : ∃ f, fuel = f + 1 := ⟨fuel - 1, by omega⟩
    have hwf' : s.all validStrChar = true := hwf
    have hs : ∀ c ∈ s, c ≠ '"' :=
      fun c hc => (validStrChar_spec c (List.all_eq_true.mp hwf' c hc)).1
    show pVal (f + 1) (('"' :: (s ++ ['"'])) ++ rest) = some (.str s, rest)
    unfold pVal
    rw [List.cons_append, skipWs_cons_of_not_ws _ _ (by decide)]
    dsimp only
    rw [if_neg (by decide : ¬('"'.isDigit = true)), if_pos rfl, List.append_assoc,
      show (['"'] : List Char) ++ rest = '"' :: rest from rfl, spanStr_closed s rest hs]
  · -- arr
    intro xs IH hwf hnf hno fuel rest hfuel _
    have hwe : wfElems xs = true := by simpa [wfJ] using hwf
    have hne : noNonFiniteElems xs = true := by simpa [noNonFinite] using hnf
    have hnoe : noOverflowElems xs = true := hno
    have hsz : sizeElems xs + 1 ≤ fuel := by simpa [sizeJ] using hfuel
    obtain ⟨f, rfl⟩ : ∃ f, fuel = f + 1 := ⟨fuel - 1, by omega⟩
    cases xs with
    | nil =>
      rfl
    | cons x xs =>
      have hwx : wfJ x = true := by
        simp only [wfElems, Bool.and_eq_true] at hwe
        exact hwe.1
      have hnx : noNonFinite x = true := by
        simp only [noNonFiniteElems, Bool.and_eq_true] at hne
        exact hne.1
      obtain ⟨c, t, hxc, hcws, hcne, _⟩ := render_start_finite x hwx hnx
      have hre : renderElems (x :: xs) ++ (']' :: rest) =
          c :: (t ++ (renderElemsTail xs ++ (']' :: rest))) := by
        simp only [renderElems, hxc, List.cons_append, List.append_assoc]
      show pVal (f + 1) (('[' :: (renderElems (x :: xs) ++ [']'])) ++ rest) =
        some (.arr (x :: xs), rest)
      unfold pVal
      rw [List.cons_append, skipWs_cons_of_not_ws _ _ (by decide)]
      dsimp only
      rw [if_neg (by decide : ¬('['.isDigit = true)), if_neg (by decide : ¬('[' = '"')),
        if_pos rfl, List.append_assoc, show ([']'] : List Char) ++ rest = ']' :: rest from rfl,
        hre, skipWs_cons_of_not_ws _ _ hcws]
      dsimp only
      rw [if_neg hcne, ← hre,
        IH hwe hne hnoe f rest (by omega) (by simp)]
  · -- obj
    intro es IH hwf hnf hno fuel rest hfuel _
    have hwe : wfEntries es = true := by simpa [wfJ] using hwf
    have hne : noNonFiniteEntries es = true := by simpa [noNonFinite] using hnf
    have hnoe : noOverflowEntries es = true := hno
    have hsz : sizeEntries es + 1 ≤ fuel := by simpa [sizeJ] using hfuel
    obtain ⟨f, rfl⟩ : ∃ f, fuel = f + 1 := ⟨fuel - 1, by omega⟩
    cases es with
    | nil =>
      rfl
    | cons e es =>
      obtain ⟨k, v⟩ := e
      have hre : renderEntries ((k, v) :: es) ++ (rbraceC :: rest) =
          '"' :: (k ++ ('"' :: ':' :: ' ' :: (render v ++ (renderEntriesTail es ++ (rbraceC :: rest))))) := by
        simp only [renderEntries, List.cons_append, List.append_assoc]
      show pVal (f + 1) ((lbraceC :: (renderEntries ((k, v) :: es) ++ [rbraceC])) ++ rest) =
        some (.obj ((k, v) :: es), rest)
      unfold pVal
      rw [List.cons_append, skipWs_cons_of_not_ws _ _ (by decide)]
      dsimp only
      rw [if_neg (by decide : ¬(lbraceC.isDigit = true)), if_neg (by decide : ¬(lbraceC = '"')),
        if_neg (by decide : ¬(lbraceC = '[')), if_pos rfl, List.append_assoc,
        show ([rbraceC] : List Char) ++ rest = rbraceC :: rest from rfl,
        hre, skipWs_cons_of_not_ws _ _ (by decide)]
      dsimp only
      rw [if_neg (by decide : ¬('"' = rbraceC)), ← hre,
        IH hwe hne hnoe f rest (by omega) (by simp)]
  · -- elems nil
    intro _ _ _ fuel after _ hne
    exact absurd rfl hne
  · -- elems cons
    intro x xs Px PXs hwf hnf hno fuel after hfuel _
    simp only [wfElems, Bool.and_eq_true] at hwf
    simp only [noNonFiniteElems, Bool.and_eq_true] at hnf
    have hno2 : (noOverflow x && noOverflowElems xs) = true := hno
    have hno3 : noOverflow x = true ∧ noOverflowElems xs = true := by
      rw [Bool.and_eq_true] at hno2
      exact hno2
    have hsz : sizeJ x + sizeElems xs + 1 ≤ fuel := by simpa [sizeElems] using hfuel
    obtain ⟨f, rfl⟩ : ∃ f, fuel = f + 1 := ⟨fuel - 1, by omega⟩
    show pElems (f + 1) ((render x ++ renderElemsTail xs) ++ (']' :: after)) =
      some (x :: xs, after)
    unfold pElems
    rw [List.append_assoc,
      Px hwf.1 hnf.1 hno3.1 f (renderElemsTail xs ++ (']' :: after)) (by omega)
        (headNotDigit_elemsTail xs after)]
    dsimp only
    cases xs with
    | nil =>
      simp only [renderElemsTail, List.nil_append]
      rw [skipWs_cons_of_not_ws _ _ (by decide)]
      dsimp only
      rw [if_neg (by decide : ¬(']' = ',')), if_pos rfl]
    | cons y ys =>
      simp only [renderElemsTail, List.cons_append, List.append_assoc]
      rw [skipWs_cons_of_not_ws _ _ (by decide)]
      dsimp only
      rw [if_pos rfl]
      have hP := PXs hwf.2 hnf.2 hno3.2 f after (by omega) (by simp)
      rw [show renderElems (y :: ys) = render y ++ renderElemsTail ys from rfl,
        List.append_assoc] at hP
      rw [hP]
  · -- entries nil
    intro _ _ _ fuel after _ hne
    exact absurd rfl hne
  · -- entries cons
    intro k v es Pv PNes hwf hnf hno fuel after hfuel _
    simp only [wfEntries, Bool.and_eq_true] at hwf
    simp only [noNonFiniteEntries, Bool.and_eq_true] at hnf
    have hno2 : (noOverflow v && noOverflowEntries es) = true := hno
    have hno3 : noOverflow v = true ∧ noOverflowEntries es = true := by
      rw [Bool.and_eq_true] at hno2
      exact hno2
    have hsz : sizeJ v + sizeEntries es + 1 ≤ fuel := by simpa [sizeEntries] using hfuel
    have hvpos := sizeJ_pos v
    obtain ⟨f, rfl⟩ : ∃ f, fuel = f + 1 := ⟨fuel - 1, by omega⟩
    obtain ⟨f2, rfl⟩ : ∃ f2, f = f2 + 1 := ⟨f - 1, by omega⟩
    have hks : ∀ c ∈ k, c ≠ '"' :=
      fun c hc => (validStrChar_spec c (List.all_eq_true.mp hwf.1.1 c hc)).1
    have hre2 : renderEntries ((k, v) :: es) ++ (rbraceC :: after) =
        '"' :: (k ++ ('"' :: ':' :: ' ' :: (render v ++ (renderEntriesTail es ++ (rbraceC :: after))))) := by
      simp only [renderEntries, List.cons_append, List.append_assoc]
    rw [hre2]
    unfold pEntries
    rw [skipWs_cons_of_not_ws _ _ (by decide)]
    dsimp only
    rw [if_pos rfl, spanStr_closed k _ hks]
    dsimp only
    rw [skipWs_cons_of_not_ws _ _ (by decide)]
    dsimp only
    rw [if_pos rfl, pVal_ws f2 ' ' _ (by decide),
      Pv hwf.1.2 hnf.1 hno3.1 (f2 + 1) (renderEntriesTail es ++ (rbraceC :: after)) (by omega)
        (headNotDigit_entriesTail es after)]
    dsimp only
    cases es with
    | nil =>
      simp only [renderEntriesTail, List.nil_append]
      rw [skipWs_cons_of_not_ws _ _ (by decide)]
      dsimp only
      rw [if_neg (by decide : ¬(rbraceC = ',')), if_pos rfl]
    | cons e2 es2 =>
      obtain ⟨k2, v2⟩ := e2
      simp only [renderEntriesTail, List.cons_append, List.append_assoc]
      rw [skipWs_cons_of_not_ws _ _ (by decide)]
      dsimp only
      rw [if_pos rfl]
      have hP := PNes hwf.2 hnf.2 hno3.2 (f2 + 1) after (by omega) (by simp)
      simp only [renderEntries, List.cons_append, List.append_assoc] at hP
      rw [hP]
theorem jsonParse_render (v : Json) (hwf : wfJ v = true) (hnf : noNonFinite v = true)
    (hno : noOverflow v = true) :
    jsonParse (render v) = some v := by
  have hsz := sizeJ_le_render.1 v hwf
  have h := parse_render.1 v hwf hnf hno ((render v).length + 1) [] (by omega)
      (by intro d hd; simp at hd)
  rw [List.append_nil] at h
  unfold jsonParse
  rw [h]
  rfl

theorem noOverflow_cleanData :
    (∀ v, noOverflow v = true → noOverflow (cleanData v) = true)
    ∧ (∀ xs, noOverflowElems xs = true → noOverflowElems (cleanDataElems xs) = true)
    ∧ (∀ es, noOverflowEntries es = true → noOverflowEntries (cleanDataEntries es) = true) := by
  refine json_mutualInd _ _ _ ?_ ?_ ?_ ?_ ?_ ?_ ?_ ?_ ?_ ?_ ?_ ?_ ?_
  · exact fun h => h
  · exact fun b h => h
  · exact fun ds h => h
  · exact fun _ => rfl
  · exact fun _ => rfl
  · exact fun _ => rfl
  · exact fun s h => h
  · intro xs IH h; exact IH h
  · intro es IH h; exact IH h
  · exact fun h => h
  · intro x xs Px PXs h
    simp only [noOverflowElems, Bool.and_eq_true] at h
    simp only [cleanDataElems, noOverflowElems, Bool.and_eq_true]
    exact ⟨Px h.1, PXs h.2⟩
  · exact fun h => h
  · intro k v es Pv PNes h
    simp only [noOverflowEntries, Bool.and_eq_true] at h
    simp only [cleanDataEntries, noOverflowEntries, Bool.and_eq_true]
    exact ⟨Pv h.1, PNes h.2⟩

theorem monthly_ok_render (v : Json) (hwf : wfJ v = true) (hno : noOverflow v = true)
    (hnf : nfOnlyObjVal v = true) :
    fetchMonthlyWeatherData 200 (render v) = .ok (cleanData v) := by
  have hsan : sanitizedText (render v) = render (cleanData v) := by
    unfold sanitizedText
    rw [sanitizeNaN_render v hwf, sanitizeInf_render _ ((wfJ_subBy isNaNJ).1 v hwf),
      (cleanData_eq_subs).1 v hnf]
  unfold fetchMonthlyWeatherData
  rw [if_pos (by omega : 200 ≤ 200 ∧ 200 < 300), hsan,
    jsonParse_render (cleanData v) (wfJ_cleanData.1 v hwf) (cleanData_noNF.1 v)
      (noOverflow_cleanData.1 v hno)]
  dsimp only
  rw [cleanData_id.1 (cleanData v) (cleanData_noNF.1 v)]

theorem cleanDataEntries_append (a b : List (List Char × Json)) :
    cleanDataEntries (a ++ b) = cleanDataEntries a ++ cleanDataEntries b := by
  induction a with
  | nil => simp [cleanDataEntries]
  | cons e a ih =>
    obtain ⟨k, v⟩ := e
    simp [cleanDataEntries, ih]
/-! ## Direct parses of one-member bodies: overflow and NaN values -/

theorem head_rbrace_not_digit (rest : List Char) :
    ∀ c, (rbraceC :: rest).head? = some c → c.isDigit = false := by
  intro c hc
  rw [List.head?_cons, Option.some.injEq] at hc
  subst hc
  decide

theorem pVal_digits (f : Nat) (d : Char) (ds rest : List Char) (hd : d.isDigit = true)
    (hall : ∀ c ∈ (d :: ds), c.isDigit = true)
    (hrest : ∀ c, rest.head? = some c → c.isDigit = false) :
    pVal (f + 1) ((d :: ds) ++ rest) = some (numToJson (d :: ds), rest) := by
  obtain ⟨htake, hdrop⟩ := takeWhile_digits (d :: ds) rest hall hrest
  unfold pVal
  rw [List.cons_append, skipWs_cons_of_not_ws _ _ (not_ws_of_digit d hd)]
  dsimp only
  rw [if_pos hd, show d :: (ds ++ rest) = (d :: ds) ++ rest from rfl, htake, hdrop]

theorem pVal_obj_num (k ds : List Char) (hk : ∀ c ∈ k, c ≠ '"')
    (hne : ds ≠ []) (hdig : ∀ c ∈ ds, c.isDigit = true) (f : Nat) (rest : List Char) :
    pVal (f + 3) (render (Json.obj [(k, Json.num ds)]) ++ rest) =
      some (Json.obj [(k, numToJson ds)], rest) := by
  have hre : render (Json.obj [(k, Json.num ds)]) ++ rest =
      lbraceC :: ('"' :: (k ++ ('"' :: ':' :: ' ' :: (ds ++ (rbraceC :: rest))))) := by
    simp only [render, renderEntries, renderEntriesTail, List.append_nil, List.cons_append,
      List.append_assoc, List.singleton_append, List.nil_append]
  rw [hre]
  unfold pVal
  rw [skipWs_cons_of_not_ws _ _ (by decide)]
  dsimp only
  rw [if_neg (by decide : ¬(lbraceC.isDigit = true)), if_neg (by decide : ¬(lbraceC = '"')),
    if_neg (by decide : ¬(lbraceC = '[')), if_pos rfl,
    skipWs_cons_of_not_ws _ _ (by decide)]
  dsimp only
  rw [if_neg (by decide : ¬('"' = rbraceC))]
  unfold pEntries
  rw [skipWs_cons_of_not_ws _ _ (by decide)]
  dsimp only
  rw [if_pos rfl, spanStr_closed k _ hk]
  dsimp only
  rw [skipWs_cons_of_not_ws _ _ (by decide)]
  dsimp only
  rw [if_pos rfl]
  cases ds with
  | nil => exact absurd rfl hne
  | cons d ds2 =>
    have hd : d.isDigit = true := hdig d (List.mem_cons_self _ _)
    rw [pVal_ws f ' ' _ (by decide),
      pVal_digits f d ds2 (rbraceC :: rest) hd hdig (head_rbrace_not_digit rest)]
    dsimp only
    rw [skipWs_cons_of_not_ws _ _ (by decide)]
    dsimp only
    rw [if_neg (by decide : ¬(rbraceC = ',')), if_pos rfl]

theorem jsonParse_obj_num (k ds : List Char) (hk : ∀ c ∈ k, c ≠ '"')
    (hne : ds ≠ []) (hdig : ∀ c ∈ ds, c.isDigit = true) :
    jsonParse (render (Json.obj [(k, Json.num ds)])) = some (Json.obj [(k, numToJson ds)]) := by
  have h2 : (render (Json.obj [(k, Json.num ds)])).length =
      (renderEntries [(k, Json.num ds)]).length + 2 := by
    simp [render, List.length_append]
  obtain ⟨f, hf⟩ : ∃ f, (render (Json.obj [(k, Json.num ds)])).length + 1 = f + 3 :=
    ⟨(renderEntries [(k, Json.num ds)]).length, by omega⟩
  have h := pVal_obj_num k ds hk hne hdig f []
  rw [List.append_nil] at h
  unfold jsonParse
  rw [hf, h]
  rfl

theorem pVal_obj_nan (k : List Char) (hk : ∀ c ∈ k, c ≠ '"') (f : Nat) (rest : List Char) :
    pVal (f + 1) (render (Json.obj [(k, Json.numNaN)]) ++ rest) = none := by
  have hre : render (Json.obj [(k, Json.numNaN)]) ++ rest =
      lbraceC :: ('"' :: (k ++ ('"' :: ':' :: ' ' :: ('N' :: 'a' :: 'N' :: (rbraceC :: rest))))) := by
    simp only [render, renderEntries, renderEntriesTail, List.append_nil, List.cons_append,
      List.append_assoc, List.singleton_append, List.nil_append]
  rw [hre]
  unfold pVal
  rw [skipWs_cons_of_not_ws _ _ (by decide)]
  dsimp only
  rw [if_neg (by decide : ¬(lbraceC.isDigit = true)), if_neg (by decide : ¬(lbraceC = '"')),
    if_neg (by decide : ¬(lbraceC = '[')), if_pos rfl,
    skipWs_cons_of_not_ws _ _ (by decide)]
  dsimp only
  rw [if_neg (by decide : ¬('"' = rbraceC))]
  cases f with
  | zero => rfl
  | succ f1 =>
    unfold pEntries
    rw [skipWs_cons_of_not_ws _ _ (by decide)]
    dsimp only
    rw [if_pos rfl, spanStr_closed k _ hk]
    dsimp only
    rw [skipWs_cons_of_not_ws _ _ (by decide)]
    dsimp only
    rw [if_pos rfl]
    cases f1 with
    | zero => rfl
    | succ f2 =>
      have hN : pVal (f2 + 1) ('N' :: 'a' :: 'N' :: (rbraceC :: rest)) = none := by
        unfold pVal
        rw [skipWs_cons_of_not_ws _ _ (by decide)]
        dsimp only
        rw [if_neg (by decide : ¬('N'.isDigit = true)), if_neg (by decide : ¬('N' = '"')),
          if_neg (by decide : ¬('N' = '[')), if_neg (by decide : ¬('N' = lbraceC)),
          if_neg (by decide : ¬('N' = 'n')), if_neg (by decide : ¬('N' = 't')),
          if_neg (by decide : ¬('N' = 'f'))]
      rw [pVal_ws f2 ' ' _ (by decide), hN]

theorem jsonParse_obj_nan (k : List Char) (hk : ∀ c ∈ k, c ≠ '"') :
    jsonParse (render (Json.obj [(k, Json.numNaN)])) = none := by
  have h := pVal_obj_nan k hk (render (Json.obj [(k, Json.numNaN)])).length []
  rw [List.append_nil] at h
  unfold jsonParse
  rw [h]

theorem fetchAQI_overflow (k ds : List Char) (hk : k.all validStrChar = true)
    (hne : ds ≠ []) (hdig : ds.all Char.isDigit = true) (hov : dblOverflow ds = true) :
    fetchAQIData 200 (render (Json.obj [(k, Json.num ds)])) =
      .ok (Json.obj [(k, Json.numInf)]) := by
  have hk2 : ∀ c ∈ k, c ≠ '"' :=
    fun c hc => (validStrChar_spec c (List.all_eq_true.mp hk c hc)).1
  have hdig2 : ∀ c ∈ ds, c.isDigit = true :=
    fun c hc => by simpa using List.all_eq_true.mp hdig c hc
  unfold fetchAQIData
  rw [if_pos (by omega : 200 ≤ 200 ∧ 200 < 300), jsonParse_obj_num k ds hk2 hne hdig2]
  dsimp only
  rw [show numToJson ds = Json.numInf from by simp [numToJson, hov]]

theorem monthly_overflow (k ds : List Char) (hk : k.all validStrChar = true)
    (hne : ds ≠ []) (hdig : ds.all Char.isDigit = true) (hov : dblOverflow ds = true) :
    fetchMonthlyWeatherData 200 (render (Json.obj [(k, Json.num ds)])) =
      .ok (Json.obj [(k, Json.null)]) := by
  have hk2 : ∀ c ∈ k, c ≠ '"' :=
    fun c hc => (validStrChar_spec c (List.all_eq_true.mp hk c hc)).1
  have hdig2 : ∀ c ∈ ds, c.isDigit = true :=
    fun c hc => by simpa using List.all_eq_true.mp hdig c hc
  have hemp : ds.isEmpty = false := by
    cases ds with
    | nil => exact absurd rfl hne
    | cons d ds2 => rfl
  have hwf0 : wfJ (Json.obj [(k, Json.num ds)]) = true := by
    simp [wfJ, wfEntries, hk, hdig, hemp]
  have hsub1 : subBy isNaNJ (Json.obj [(k, Json.num ds)]) = Json.obj [(k, Json.num ds)] := by
    simp [subBy, subByEntries, isNaNJ]
  have hsub2 : subBy isInfJ (Json.obj [(k, Json.num ds)]) = Json.obj [(k, Json.num ds)] := by
    simp [subBy, subByEntries, isInfJ]
  have hsan : sanitizedText (render (Json.obj [(k, Json.num ds)])) =
      render (Json.obj [(k, Json.num ds)]) := by
    unfold sanitizedText
    rw [sanitizeNaN_render _ hwf0, hsub1, sanitizeInf_render _ hwf0, hsub2]
  unfold fetchMonthlyWeatherData
  rw [if_pos (by omega : 200 ≤ 200 ∧ 200 < 300), hsan, jsonParse_obj_num k ds hk2 hne hdig2]
  dsimp only
  rw [show numToJson ds = Json.numInf from by simp [numToJson, hov]]
  simp [cleanData, cleanDataEntries]

/-! ## The C4 and C5 claims -/

/-- C4: the claim fails on a body whose `NaN` sits in an array-element
position — the `:`-anchored substitution does not reach it, so the
repaired text still fails to parse and the call errors instead of
returning a value with null at that position. -/
theorem monthly_nan_array_cex :
    fetchMonthlyWeatherData 200 (render (Json.obj [(['a'], Json.arr [Json.numNaN])])) =
      .error .invalidJson := by
  rfl

/-- C4 (amended): over the modelled grammar (escape-free strings,
unsigned integer numerals, with numerals overflowing a double
saturated to `Infinity` by the parse exactly as in JS): a body whose
non-finite tokens all sit in object-member value positions — at any
depth — is repaired by the text substitution, parses, and comes back
as its `cleanData` image; a member holding the literal `NaN` holds
null in the result at exactly its position; and a member numeral at or
beyond the double-overflow threshold parses to `Infinity` and is also
returned as null. -/
theorem monthly_nan_repair :
    (∀ v, wfJ v = true → noOverflow v = true → nfOnlyObjVal v = true →
        fetchMonthlyWeatherData 200 (render v) = .ok (cleanData v))
    ∧ (∀ (k : List Char) (pre post : List (List Char × Json)),
        cleanDataEntries (pre ++ (k, Json.numNaN) :: post) =
          cleanDataEntries pre ++ (k, Json.null) :: cleanDataEntries post)
    ∧ (∀ (k ds : List Char), k.all validStrChar = true → ds ≠ [] →
        ds.all Char.isDigit = true → dblOverflow ds = true →
        fetchMonthlyWeatherData 200 (render (Json.obj [(k, Json.num ds)])) =
          .ok (Json.obj [(k, Json.null)])) := by
  refine ⟨fun v hwf hno hnf => monthly_ok_render v hwf hno hnf, ?_, ?_⟩
  · intro k pre post
    rw [cleanDataEntries_append]
    simp [cleanDataEntries, cleanData]
  · intro k ds hk hne hdig hov
    exact monthly_overflow k ds hk hne hdig hov

set_option maxRecDepth 8192 in
theorem monthly_nan_repair_witness :
    fetchMonthlyWeatherData 200 (render (Json.obj [(['a'], Json.numNaN)])) =
      .ok (cleanData (Json.obj [(['a'], Json.numNaN)]))
    ∧ fetchMonthlyWeatherData 200
        (render (Json.obj [(['a'], Json.num (List.replicate 309 '9'))])) =
      .ok (Json.obj [(['a'], Json.null)]) :=
  ⟨monthly_nan_repair.1 (Json.obj [(['a'], Json.numNaN)]) (by decide) (by decide)
      (by simp [nfOnlyObjVal, nfEntries, nfObjVal]),
   monthly_nan_repair.2.2 ['a'] (List.replicate 309 '9') (by decide) (by decide)
      (by decide) (by decide)⟩

set_option maxRecDepth 8192 in
/-- C5: the claim fails for `fetchAQIData` (and the five fetch
wrappers identical to it) in both directions: the very body whose
member `NaN` the monthly wrapper repairs to null makes it throw a
JSON parse error instead of returning, and a body with an overflowing
numeral comes back containing `Infinity`, a non-finite number. -/
theorem fetchAQI_nan_cex :
    fetchAQIData 200 (render (Json.obj [(['a'], Json.numNaN)])) = .error .invalidJson
    ∧ fetchMonthlyWeatherData 200 (render (Json.obj [(['a'], Json.numNaN)])) =
        .ok (Json.obj [(['a'], Json.null)])
    ∧ fetchAQIData 200 (render (Json.obj [(['a'], Json.num (List.replicate 309 '9'))])) =
        .ok (Json.obj [(['a'], Json.numInf)])
    ∧ noNonFinite (Json.obj [(['a'], Json.numInf)]) = false :=
  ⟨rfl, rfl,
   fetchAQI_overflow ['a'] (List.replicate 309 '9') (by decide) (by decide)
      (by decide) (by decide),
   rfl⟩

/-- C5 (amended): only `fetchMonthlyWeatherData` normalizes non-finite
values to null — its successful results never contain a non-finite
number; the other wrappers perform no normalization: a body with an
overflowing numeral makes them return a value containing `Infinity`,
and a body with a `NaN` token makes them throw a JSON parse error. -/
theorem fetchClient_nonfinite_policy :
    (∀ status text j, fetchMonthlyWeatherData status text = .ok j → noNonFinite j = true)
    ∧ (∀ (k ds : List Char), k.all validStrChar = true → ds ≠ [] →
        ds.all Char.isDigit = true → dblOverflow ds = true →
        fetchAQIData 200 (render (Json.obj [(k, Json.num ds)])) =
          .ok (Json.obj [(k, Json.numInf)]))
    ∧ (∀ (k : List Char), k.all validStrChar = true →
        fetchAQIData 200 (render (Json.obj [(k, Json.numNaN)])) = .error .invalidJson) := by
  refine ⟨?_, ?_, ?_⟩
  · intro s t j h
    unfold fetchMonthlyWeatherData at h
    split_ifs at h with hs
    · split at h
      · rename_i d hp
        obtain rfl : cleanData d = j := by injection h
        exact cleanData_noNF.1 d
      · simp at h
  · intro k ds hk hne hdig hov
    exact fetchAQI_overflow k ds hk hne hdig hov
  · intro k hk
    have hk2 : ∀ c ∈ k, c ≠ '"' :=
      fun c hc => (validStrChar_spec c (List.all_eq_true.mp hk c hc)).1
    unfold fetchAQIData
    rw [if_pos (by omega : 200 ≤ 200 ∧ 200 < 300), jsonParse_obj_nan k hk2]

set_option maxRecDepth 8192 in
theorem fetchClient_nonfinite_policy_witness :
    noNonFinite (Json.obj [(['b'], Json.null)]) = true
    ∧ fetchAQIData 200 (render (Json.obj [(['b'], Json.num (List.replicate 309 '9'))])) =
        .ok (Json.obj [(['b'], Json.numInf)])
    ∧ fetchAQIData 200 (render (Json.obj [(['b'], Json.numNaN)])) = .error .invalidJson :=
  ⟨fetchClient_nonfinite_policy.1 200 (render (Json.obj [(['b'], Json.numNaN)]))
      (Json.obj [(['b'], Json.null)]) (by rfl),
   fetchClient_nonfinite_policy.2.1 ['b'] (List.replicate 309 '9') (by decide) (by decide)
      (by decide) (by decide),
   fetchClient_nonfinite_policy.2.2 ['b'] (by decide)⟩
